import Mathlib

/-!
Verification of the parallel-router core of vtr-verilog-to-routing
(partition tree builder, net decomposition, dispatcher), as a shallow
embedding of `vpr/src/route/partition_tree.cpp`, `route_parallel.cpp`
(src/unnamed/part_000) and `route_parallel.h`-side declarations
(src/unnamed/part_001).

Modelling conventions:
* C++ `int` becomes `Int`; `size_t` quantities that the code keeps
  non-negative become `Nat` (explicit `Int.toNat` at the conversion points
  of the source).
* `VTR_ASSERT` failures and C++ undefined behaviour (division by zero)
  are modelled with `Except`/`Option` error values.
* External collaborators that are not part of this repository slice
  (connection router, RR graph lookups, timing oracle) enter as explicit
  parameters; RR nodes are represented by their `(xlow, ylow)` coordinate,
  which is all the code under verification reads from them.
* Recursive tree construction carries an explicit `fuel` argument for
  termination; with enough fuel the embedding agrees with the source
  recursion, and running out of fuel yields the same error value as a
  failing assertion, so "successful build" statements are fuel-independent.
-/

namespace VtrParallel

/-- Cutline axis (`PartitionTreeNode::Axis` in partition_tree.h). -/
inductive Axis where
  | X : Axis
  | Y : Axis
deriving DecidableEq, Repr

/-- Side of a cutline: `0` is left/up, anything else right/down
(`Side` used by route_parallel.cpp; declaration outside the provided slice,
the two values and their meaning are stated in the source comments of
`which_side`). -/
inductive Side where
  | LEFT : Side
  | RIGHT : Side
deriving DecidableEq, Repr

/-- `!side` as used in `make_decomposed_pair`. -/
def Side.flip : Side → Side
  | Side.LEFT => Side.RIGHT
  | Side.RIGHT => Side.LEFT

/-- Inclusive integer bounding box `t_bb {xmin, xmax, ymin, ymax}`. -/
structure TBB where
  xmin : Int
  xmax : Int
  ymin : Int
  ymax : Int
deriving DecidableEq, Repr

/-- A net as the partition tree builder sees it: its identity, its current
routing bounding box `route_ctx.route_bb[net_id]` and its fanout
`netlist.net_sinks(net_id).size()`. -/
structure PNet where
  id : Nat
  bb : TBB
  fanouts : Nat
deriving DecidableEq, Repr

/-! ## Partition tree builder (`PartitionTree::build_helper`) -/

/-- `x_start` of a net in `build_helper`: start coordinate relative to `x1`,
clamped: `std::max(x1, bb.xmin) - x1`. The same formula serves the Y axis. -/
def coordStart (x1 : Int) (lo : Int) : Int := max x1 lo - x1

/-- `x_end` of a net in `build_helper`: `std::min(bb.xmax + 1, x2) - x1`. -/
def coordEnd (x1 x2 : Int) (hi : Int) : Int := min (hi + 1) x2 - x1

/-- `x_total_before[x]`: the prefix-sum array entry built by the loops
`for (x = x_start; x < W; x++) x_total_before[x] += fanouts`.  A net
contributes its fanout at index `x` iff `x_start ≤ x`. -/
def x_total_before (nets : List PNet) (x1 : Int) (x : Int) : Int :=
  (nets.map (fun n => if coordStart x1 n.bb.xmin ≤ x then (n.fanouts : Int) else 0)).sum

/-- `x_total_after[x]`: a net contributes at `x` iff `x < x_end`. -/
def x_total_after (nets : List PNet) (x1 x2 : Int) (x : Int) : Int :=
  (nets.map (fun n => if x < coordEnd x1 x2 n.bb.xmax then (n.fanouts : Int) else 0)).sum

/-- `y_total_before[y]`, via the same loops on the Y axis. -/
def y_total_before (nets : List PNet) (y1 : Int) (y : Int) : Int :=
  (nets.map (fun n => if coordStart y1 n.bb.ymin ≤ y then (n.fanouts : Int) else 0)).sum

/-- `y_total_after[y]`. -/
def y_total_after (nets : List PNet) (y1 y2 : Int) (y : Int) : Int :=
  (nets.map (fun n => if y < coordEnd y1 y2 n.bb.ymax then (n.fanouts : Int) else 0)).sum

/-- One candidate cut position as inspected by the two scan loops of
`build_helper`: whether it survives the `before == max_before ||
after == max_after` rejection, its score `abs(before - after)`, its absolute
position and its axis. -/
structure Cand where
  survives : Bool
  score : Int
  pos : Int
  axis : Axis
deriving DecidableEq, Repr

/-- The running `(best_score, best_pos, best_axis)` triple of `build_helper`. -/
structure BestCut where
  score : Int
  pos : Int
  axis : Axis
deriving DecidableEq, Repr

/-- Initial best: `best_score = std::numeric_limits<int>::max()`,
`best_pos = -1`, `best_axis = X`. -/
def initBest : BestCut := ⟨2147483647, -1, Axis.X⟩

/-- One iteration of a scan loop: skip rejected positions, otherwise keep the
candidate if its score strictly improves the best (`score < best_score`),
so the first minimum in scan order wins. -/
def stepBest (b : BestCut) (c : Cand) : BestCut :=
  if c.survives = false then b
  else if c.score < b.score then ⟨c.score, c.pos, c.axis⟩ else b

/-- The X-axis scan loop of `build_helper` as a candidate list:
index `x` ranges over `0 ≤ x < W`, `max_x_before = x_total_before[W-1]`,
`max_x_after = x_total_after[0]`, position `x1 + x`. -/
def xCands (nets : List PNet) (x1 x2 : Int) : List Cand :=
  (List.range (x2 - x1).toNat).map (fun x =>
    { survives := !(decide (x_total_before nets x1 (x : Int) = x_total_before nets x1 (x2 - x1 - 1))
                    || decide (x_total_after nets x1 x2 (x : Int) = x_total_after nets x1 x2 0)),
      score := |x_total_before nets x1 (x : Int) - x_total_after nets x1 x2 (x : Int)|,
      pos := x1 + (x : Int),
      axis := Axis.X })

/-- The Y-axis scan loop of `build_helper` as a candidate list. -/
def yCands (nets : List PNet) (y1 y2 : Int) : List Cand :=
  (List.range (y2 - y1).toNat).map (fun y =>
    { survives := !(decide (y_total_before nets y1 (y : Int) = y_total_before nets y1 (y2 - y1 - 1))
                    || decide (y_total_after nets y1 y2 (y : Int) = y_total_after nets y1 y2 0)),
      score := |y_total_before nets y1 (y : Int) - y_total_after nets y1 y2 (y : Int)|,
      pos := y1 + (y : Int),
      axis := Axis.Y })

/-- All candidate positions in scan order: the X loop runs before the Y loop. -/
def cutCands (nets : List PNet) (x1 y1 x2 y2 : Int) : List Cand :=
  xCands nets x1 x2 ++ yCands nets y1 y2

/-- The cutline selection of `build_helper`: both scan loops folded over the
initial best. -/
def chooseCutline (nets : List PNet) (x1 y1 x2 y2 : Int) : BestCut :=
  (cutCands nets x1 y1 x2 y2).foldl stepBest initBest

/-- Which of the three lists (`left_nets`, `right_nets`, `my_nets`) a net is
pushed into. -/
inductive NetClass where
  | toLeft : NetClass
  | toRight : NetClass
  | toMine : NetClass
deriving DecidableEq, Repr

/-- The if/else-if classification of `build_helper` for one net against the
chosen cutline; `none` is the `VTR_ASSERT(false)` (unreachable) branch. -/
def classify (axis : Axis) (p : Int) (bb : TBB) : Option NetClass :=
  match axis with
  | Axis.X =>
    if bb.xmin < p ∧ bb.xmax < p then some NetClass.toLeft
    else if bb.xmin > p ∧ bb.xmax > p then some NetClass.toRight
    else if bb.xmin ≤ p ∧ bb.xmax ≥ p then some NetClass.toMine
    else none
  | Axis.Y =>
    if bb.ymin < p ∧ bb.ymax < p then some NetClass.toLeft
    else if bb.ymin > p ∧ bb.ymax > p then some NetClass.toRight
    else if bb.ymin ≤ p ∧ bb.ymax ≥ p then some NetClass.toMine
    else none

/-- The population loop of `build_helper`: split `nets` into
`(left_nets, right_nets, my_nets)` preserving order; `none` when any net hits
the unreachable assertion. -/
def partition3 (axis : Axis) (p : Int) : List PNet → Option (List PNet × List PNet × List PNet)
  | [] => some ([], [], [])
  | n :: rest =>
    match classify axis p n.bb, partition3 axis p rest with
    | some NetClass.toLeft, some (l, r, m) => some (n :: l, r, m)
    | some NetClass.toRight, some (l, r, m) => some (l, n :: r, m)
    | some NetClass.toMine, some (l, r, m) => some (l, r, n :: m)
    | _, _ => none

/-- `PartitionTreeNode`: nets claimed by the node, optional children
(`nullptr` = `none`), and the cutline fields (defaults `X`, `-1`). -/
inductive PTree where
  | mk (nets : List PNet) (left : Option PTree) (right : Option PTree)
      (axis : Axis) (pos : Int) : PTree

def PTree.nets : PTree → List PNet
  | PTree.mk ns _ _ _ _ => ns

def PTree.left : PTree → Option PTree
  | PTree.mk _ l _ _ _ => l

def PTree.right : PTree → Option PTree
  | PTree.mk _ _ r _ _ => r

def PTree.axis : PTree → Axis
  | PTree.mk _ _ _ a _ => a

def PTree.pos : PTree → Int
  | PTree.mk _ _ _ _ p => p

/-- `PartitionTree::build_helper`.  Returns `Except.error ()` when a
`VTR_ASSERT` fires (the program aborts) and `Except.ok none` for the
`nullptr` returned on an empty net list.  The recursive calls reproduce the
source argument lists exactly: on an X cut the right child is built with
`(best_pos, y2, x2, y2)` and on a Y cut the children get
`(x1, best_pos, x2, y2)` and `(x1, y1, x2, best_pos)`. -/
def build_helper (fuel : Nat) (nets : List PNet) (x1 y1 x2 y2 : Int) :
    Except Unit (Option PTree) :=
  match fuel with
  | 0 => Except.error ()
  | fuel + 1 =>
    if nets.isEmpty then Except.ok none
    else if x2 - x1 ≤ 0 ∨ y2 - y1 ≤ 0 then Except.error ()
    else
      let best := chooseCutline nets x1 y1 x2 y2
      if best.pos = -1 then Except.ok (some (PTree.mk nets none none Axis.X (-1)))
      else
        match partition3 best.axis best.pos nets with
        | none => Except.error ()
        | some (left_nets, right_nets, my_nets) =>
          match best.axis with
          | Axis.X =>
            match build_helper fuel left_nets x1 y1 best.pos y2,
                  build_helper fuel right_nets best.pos y2 x2 y2 with
            | Except.ok l, Except.ok r =>
              Except.ok (some (PTree.mk my_nets l r Axis.X best.pos))
            | _, _ => Except.error ()
          | Axis.Y =>
            match build_helper fuel left_nets x1 best.pos x2 y2,
                  build_helper fuel right_nets x1 y1 x2 best.pos with
            | Except.ok l, Except.ok r =>
              Except.ok (some (PTree.mk my_nets l r Axis.Y best.pos))
            | _, _ => Except.error ()

/-- Number of occurrences of a net in the `nets` lists of a whole subtree. -/
def countTree (x : PNet) : PTree → Nat
  | PTree.mk nets l r _ _ =>
    nets.count x
    + (match l with | none => 0 | some t => countTree x t)
    + (match r with | none => 0 | some t => countTree x t)

/-- Occurrence count through the optional-node wrapper. -/
def countOpt (x : PNet) : Option PTree → Nat
  | none => 0
  | some t => countTree x t

/-- The three-way split preserves occurrence counts. -/
theorem partition3_count (axis : Axis) (p : Int) (x : PNet) :
    ∀ nets l r m, partition3 axis p nets = some (l, r, m) →
      l.count x + r.count x + m.count x = nets.count x := by
  intro nets
  induction nets with
  | nil =>
    intro l r m h
    simp only [partition3, Option.some.injEq, Prod.mk.injEq] at h
    obtain ⟨hl, hr, hm⟩ := h
    subst hl; subst hr; subst hm
    simp
  | cons n rest ih =>
    intro l r m h
    simp only [partition3] at h
    rcases hcl : classify axis p n.bb with _ | c <;> rw [hcl] at h
    · exact absurd h (by simp)
    rcases hrec : partition3 axis p rest with _ | ⟨l0, r0, m0⟩ <;> rw [hrec] at h
    · cases c <;> exact absurd h (by simp)
    have hbase := ih l0 r0 m0 hrec
    cases c <;> simp only [Option.some.injEq, Prod.mk.injEq] at h <;>
      obtain ⟨hl, hr, hm⟩ := h <;> subst hl <;> subst hr <;> subst hm <;>
      simp only [List.count_cons] <;> omega

/-- Membership in the three-way split follows the classification. -/
theorem partition3_mem_mine (axis : Axis) (p : Int) (x : PNet) :
    ∀ nets l r m, partition3 axis p nets = some (l, r, m) →
      x ∈ nets → classify axis p x.bb = some NetClass.toMine → x ∈ m := by
  intro nets
  induction nets with
  | nil => intro l r m _ hx; simp at hx
  | cons n rest ih =>
    intro l r m h hx hcl
    simp only [partition3] at h
    rcases hcln : classify axis p n.bb with _ | c <;> rw [hcln] at h
    · exact absurd h (by simp)
    rcases hrec : partition3 axis p rest with _ | ⟨l0, r0, m0⟩ <;> rw [hrec] at h
    · cases c <;> exact absurd h (by simp)
    rcases List.mem_cons.mp hx with hx | hx
    · subst hx
      rw [hcl] at hcln
      injection hcln with hc
      subst hc
      simp only [Option.some.injEq, Prod.mk.injEq] at h
      obtain ⟨hl, hr, hm⟩ := h
      subst hm
      simp
    · have hmem := ih l0 r0 m0 hrec hx hcl
      cases c <;> simp only [Option.some.injEq, Prod.mk.injEq] at h <;>
        obtain ⟨hl, hr, hm⟩ := h <;> subst hm <;> simp [hmem]

/-- Unfolding lemma for `countOpt` on a present node. -/
theorem countOpt_some (x : PNet) (t : PTree) : countOpt x (some t) = countTree x t := rfl

/-- Unfolding lemma for `countTree` on a constructed node. -/
theorem countTree_mk (x : PNet) (nets : List PNet) (l r : Option PTree)
    (a : Axis) (p : Int) :
    countTree x (PTree.mk nets l r a p) = nets.count x + countOpt x l + countOpt x r := by
  cases l <;> cases r <;> rfl

/-- Count preservation for `build_helper`: a successful build distributes the
input nets over the tree without loss or duplication. -/
theorem build_helper_count (fuel : Nat) :
    ∀ nets x1 y1 x2 y2 r, build_helper fuel nets x1 y1 x2 y2 = Except.ok r →
      ∀ x, countOpt x r = nets.count x := by
  induction fuel with
  | zero =>
    intro nets x1 y1 x2 y2 r h
    exact absurd h (by simp [build_helper])
  | succ fuel ih =>
    intro nets x1 y1 x2 y2 r h x
    rw [build_helper] at h
    by_cases hempty : nets.isEmpty
    · rw [if_pos hempty] at h
      obtain rfl : (none : Option PTree) = r := by
        simpa using h
      rw [List.isEmpty_iff] at hempty
      subst hempty
      simp [countOpt]
    · rw [if_neg hempty] at h
      by_cases hdim : x2 - x1 ≤ 0 ∨ y2 - y1 ≤ 0
      · rw [if_pos hdim] at h; exact absurd h (by simp)
      · rw [if_neg hdim] at h
        simp only [] at h
        by_cases hleaf : (chooseCutline nets x1 y1 x2 y2).pos = -1
        · rw [if_pos hleaf] at h
          obtain rfl : some (PTree.mk nets none none Axis.X (-1)) = r := by simpa using h
          simp [countOpt, countTree]
        · rw [if_neg hleaf] at h
          rcases hpart : partition3 (chooseCutline nets x1 y1 x2 y2).axis
              (chooseCutline nets x1 y1 x2 y2).pos nets with _ | ⟨lns, rns, mns⟩ <;>
            rw [hpart] at h <;> dsimp only [] at h
          · exact absurd h (by simp)
          have hcnt := partition3_count (chooseCutline nets x1 y1 x2 y2).axis
            (chooseCutline nets x1 y1 x2 y2).pos x nets lns rns mns hpart
          rcases haxis : (chooseCutline nets x1 y1 x2 y2).axis with _ | _ <;>
            rw [haxis] at h <;> (try dsimp only [] at h)
          · rcases hl : build_helper fuel lns x1 y1 (chooseCutline nets x1 y1 x2 y2).pos y2
              with el | rl <;> rw [hl] at h <;> (try dsimp only [] at h)
            · exact absurd h (by simp)
            rcases hr : build_helper fuel rns (chooseCutline nets x1 y1 x2 y2).pos y2 x2 y2
              with er | rr <;> rw [hr] at h <;> (try dsimp only [] at h)
            · exact absurd h (by simp)
            obtain rfl : some (PTree.mk mns rl rr Axis.X
                (chooseCutline nets x1 y1 x2 y2).pos) = r := by simpa using h
            have ihl := ih lns x1 y1 (chooseCutline nets x1 y1 x2 y2).pos y2 rl hl x
            have ihr := ih rns (chooseCutline nets x1 y1 x2 y2).pos y2 x2 y2 rr hr x
            simp only [countOpt_some, countTree_mk]
            omega
          · rcases hl : build_helper fuel lns x1 (chooseCutline nets x1 y1 x2 y2).pos x2 y2
              with el | rl <;> rw [hl] at h <;> (try dsimp only [] at h)
            · exact absurd h (by simp)
            rcases hr : build_helper fuel rns x1 y1 x2 (chooseCutline nets x1 y1 x2 y2).pos
              with er | rr <;> rw [hr] at h <;> (try dsimp only [] at h)
            · exact absurd h (by simp)
            obtain rfl : some (PTree.mk mns rl rr Axis.Y
                (chooseCutline nets x1 y1 x2 y2).pos) = r := by simpa using h
            have ihl := ih lns x1 (chooseCutline nets x1 y1 x2 y2).pos x2 y2 rl hl x
            have ihr := ih rns x1 y1 x2 (chooseCutline nets x1 y1 x2 y2).pos rr hr x
            simp only [countOpt_some, countTree_mk]
            omega

/-- The X-axis classification against a valid bbox implements the
left/right/crossing trichotomy. -/
theorem classifyX_spec (p : Int) (bb : TBB) (hv : bb.xmin ≤ bb.xmax) :
    (classify Axis.X p bb = some NetClass.toMine ↔ bb.xmin ≤ p ∧ p ≤ bb.xmax) ∧
    (classify Axis.X p bb = some NetClass.toLeft ↔ bb.xmax < p) ∧
    (classify Axis.X p bb = some NetClass.toRight ↔ p < bb.xmin) := by
  simp only [classify]
  split_ifs with h1 h2 h3 <;>
    refine ⟨?_, ?_, ?_⟩ <;> simp only [Option.some.injEq, reduceCtorEq, false_iff,
      true_iff, iff_true, iff_false] <;> omega

/-- The Y-axis classification against a valid bbox implements the
left/right/crossing trichotomy. -/
theorem classifyY_spec (p : Int) (bb : TBB) (hv : bb.ymin ≤ bb.ymax) :
    (classify Axis.Y p bb = some NetClass.toMine ↔ bb.ymin ≤ p ∧ p ≤ bb.ymax) ∧
    (classify Axis.Y p bb = some NetClass.toLeft ↔ bb.ymax < p) ∧
    (classify Axis.Y p bb = some NetClass.toRight ↔ p < bb.ymin) := by
  simp only [classify]
  split_ifs with h1 h2 h3 <;>
    refine ⟨?_, ?_, ?_⟩ <;> simp only [Option.some.injEq, reduceCtorEq, false_iff,
      true_iff, iff_true, iff_false] <;> omega

/-! ## Concrete nets used as failing inputs and witnesses -/

/-- Net with bbox `x ∈ [0,0], y ∈ [0,1]`, one sink. -/
def netA : PNet := ⟨0, ⟨0, 0, 0, 1⟩, 1⟩

/-- Net with bbox `x ∈ [2,2], y ∈ [0,1]`, one sink. -/
def netB : PNet := ⟨1, ⟨2, 2, 0, 1⟩, 1⟩

/-- Net with bbox `y ∈ [0,0]` and full-width X extent, one sink. -/
def netC : PNet := ⟨0, ⟨0, 3, 0, 0⟩, 1⟩

/-- Net with bbox `y ∈ [3,3]` and full-width X extent, two sinks. -/
def netD : PNet := ⟨1, ⟨0, 3, 3, 3⟩, 2⟩

/-- Net whose bbox is the whole `5 × 5` device, three sinks. -/
def netFull : PNet := ⟨2, ⟨0, 4, 0, 4⟩, 3⟩

/-- Claim C1: on a `4 × 2` region with nets `netA` (bbox `x ∈ [0,0]`) and
`netB` (bbox `x ∈ [2,2]`), `build_helper` picks the X cutline at `pos = 1`,
but then builds the right child over `(best_pos, y2, x2, y2)` — the empty
region `[1,4) × [2,2)` instead of `[1,4) × [0,2)` as the spec describes —
so the child's `VTR_ASSERT(W > 0 && H > 0)` fires (height 0) and the build
aborts.  This evaluates the code at that failing input. -/
theorem claim1_x_cut_right_child_assertion_failure :
    chooseCutline [netA, netB] 0 0 4 2 = ⟨0, 1, Axis.X⟩ ∧
    build_helper 5 [netA, netB] 0 0 4 2 = Except.error () :=
  ⟨rfl, rfl⟩

/-- Claim C2: a successful `build_helper` run places every input net in
exactly one node's `nets` list (occurrence counts over the whole tree equal
occurrence counts of the input), and at a cutline `(A, p)` the placement
follows the trichotomy: a valid-bbox net goes to `my_nets` iff
`bb.min[A] ≤ p ≤ bb.max[A]`, to `left_nets` iff `bb.max[A] < p` and to
`right_nets` iff `bb.min[A] > p`, these three cases being mutually exclusive
and exhaustive. -/
theorem claim2_exact_cover_and_trichotomy :
    (∀ fuel nets x1 y1 x2 y2 r, build_helper fuel nets x1 y1 x2 y2 = Except.ok r →
      ∀ x : PNet, countOpt x r = nets.count x) ∧
    (∀ (p : Int) (bb : TBB), bb.xmin ≤ bb.xmax →
      (classify Axis.X p bb = some NetClass.toMine ↔ bb.xmin ≤ p ∧ p ≤ bb.xmax) ∧
      (classify Axis.X p bb = some NetClass.toLeft ↔ bb.xmax < p) ∧
      (classify Axis.X p bb = some NetClass.toRight ↔ p < bb.xmin)) ∧
    (∀ (p : Int) (bb : TBB), bb.ymin ≤ bb.ymax →
      (classify Axis.Y p bb = some NetClass.toMine ↔ bb.ymin ≤ p ∧ p ≤ bb.ymax) ∧
      (classify Axis.Y p bb = some NetClass.toLeft ↔ bb.ymax < p) ∧
      (classify Axis.Y p bb = some NetClass.toRight ↔ p < bb.ymin)) :=
  ⟨fun fuel => build_helper_count fuel, classifyX_spec, classifyY_spec⟩

/-- Concrete instantiation of claim C2 on the Y-cut tree built from
`netC`/`netD` and on a crossing classification. -/
theorem claim2_witness :
    countOpt netC (some (PTree.mk [] (some (PTree.mk [netC] none none Axis.X (-1)))
      (some (PTree.mk [netD] none none Axis.X (-1))) Axis.Y 1)) = [netC, netD].count netC ∧
    classify Axis.X 2 netFull.bb = some NetClass.toMine := by
  refine ⟨claim2_exact_cover_and_trichotomy.1 5 [netC, netD] 0 0 4 4 _ (by rfl) netC, ?_⟩
  exact (claim2_exact_cover_and_trichotomy.2.1 2 netFull.bb (by norm_num [netFull])).1.mpr
    (by norm_num [netFull])

/-! ## Characterization of the best-cut fold (claim C6 infrastructure) -/

/-- If every candidate is rejected, the fold returns its initial best. -/
theorem foldBest_no_survivor (L : List Cand) (b0 : BestCut)
    (h : ∀ c ∈ L, c.survives = false) : L.foldl stepBest b0 = b0 := by
  induction L generalizing b0 with
  | nil => rfl
  | cons c rest ih =>
    have hc : c.survives = false := h c (by simp)
    rw [List.foldl_cons]
    have hb : stepBest b0 c = b0 := by simp [stepBest, hc]
    rw [hb]
    exact ih b0 (fun d hd => h d (by simp [hd]))

/-- The scan fold keeps the first minimum among surviving candidates: the
result's score is a lower bound on all surviving scores, and the result is
either the untouched initial best or a copy of the earliest surviving
candidate achieving the minimum, every earlier surviving candidate scoring
strictly worse. -/
theorem foldBest_spec (L : List Cand) (b0 : BestCut) :
    (∀ i (hi : i < L.length), (L.get ⟨i, hi⟩).survives = true →
        (L.foldl stepBest b0).score ≤ (L.get ⟨i, hi⟩).score) ∧
    ((L.foldl stepBest b0 = b0 ∧
        ∀ i (hi : i < L.length), (L.get ⟨i, hi⟩).survives = true →
          b0.score ≤ (L.get ⟨i, hi⟩).score) ∨
      (∃ k, ∃ hk : k < L.length,
        (L.get ⟨k, hk⟩).survives = true ∧
        L.foldl stepBest b0 =
          ⟨(L.get ⟨k, hk⟩).score, (L.get ⟨k, hk⟩).pos, (L.get ⟨k, hk⟩).axis⟩ ∧
        (L.foldl stepBest b0).score < b0.score ∧
        ∀ j (hj : j < k), (L.get ⟨j, hj.trans hk⟩).survives = true →
          (L.foldl stepBest b0).score < (L.get ⟨j, hj.trans hk⟩).score)) := by
  induction L generalizing b0 with
  | nil =>
    refine ⟨fun i hi => absurd hi (by simp), Or.inl ⟨rfl, fun i hi => absurd hi (by simp)⟩⟩
  | cons c rest ih =>
    by_cases hs : c.survives = true
    · by_cases himp : c.score < b0.score
      · have hb1 : stepBest b0 c = ⟨c.score, c.pos, c.axis⟩ := by
          simp [stepBest, hs, himp]
        obtain ⟨ihP1, ihP2⟩ := ih ⟨c.score, c.pos, c.axis⟩
        rw [List.foldl_cons, hb1]
        have hrle : (rest.foldl stepBest ⟨c.score, c.pos, c.axis⟩).score ≤ c.score := by
          rcases ihP2 with ⟨heq, _⟩ | ⟨k, hk, _, _, hlt, _⟩
          · rw [heq]
          · exact le_of_lt hlt
        constructor
        · intro i hi hsi
          cases i with
          | zero => exact hrle
          | succ i => exact ihP1 i (Nat.lt_of_succ_lt_succ hi) hsi
        · right
          rcases ihP2 with ⟨heq, hge⟩ | ⟨k, hk, hks, hkeq, hklt, hkfirst⟩
          · exact ⟨0, by simp, hs, by rw [heq]; rfl, by rw [heq]; exact himp,
              fun j hj => absurd hj (by omega)⟩
          · refine ⟨k + 1, Nat.succ_lt_succ hk, hks, hkeq, lt_trans hklt himp, ?_⟩
            intro j hj hsj
            cases j with
            | zero => exact hklt
            | succ j => exact hkfirst j (Nat.lt_of_succ_lt_succ hj) hsj
      · have hb1 : stepBest b0 c = b0 := by
          simp [stepBest, hs, himp]
        obtain ⟨ihP1, ihP2⟩ := ih b0
        rw [List.foldl_cons, hb1]
        have hble : b0.score ≤ c.score := not_lt.mp himp
        have hrle : (rest.foldl stepBest b0).score ≤ b0.score := by
          rcases ihP2 with ⟨heq, _⟩ | ⟨k, hk, _, _, hlt, _⟩
          · rw [heq]
          · exact le_of_lt hlt
        constructor
        · intro i hi hsi
          cases i with
          | zero => exact le_trans hrle hble
          | succ i => exact ihP1 i (Nat.lt_of_succ_lt_succ hi) hsi
        · rcases ihP2 with ⟨heq, hge⟩ | ⟨k, hk, hks, hkeq, hklt, hkfirst⟩
          · refine Or.inl ⟨heq, ?_⟩
            intro i hi hsi
            cases i with
            | zero => exact hble
            | succ i => exact hge i (Nat.lt_of_succ_lt_succ hi) hsi
          · refine Or.inr ⟨k + 1, Nat.succ_lt_succ hk, hks, hkeq, hklt, ?_⟩
            intro j hj hsj
            cases j with
            | zero => exact lt_of_lt_of_le hklt hble
            | succ j => exact hkfirst j (Nat.lt_of_succ_lt_succ hj) hsj
    · have hs' : c.survives = false := by
        cases hsv : c.survives
        · rfl
        · exact absurd hsv hs
      have hb1 : stepBest b0 c = b0 := by simp [stepBest, hs']
      obtain ⟨ihP1, ihP2⟩ := ih b0
      rw [List.foldl_cons, hb1]
      constructor
      · intro i hi hsi
        cases i with
        | zero => exact absurd hsi (by simp [hs'])
        | succ i => exact ihP1 i (Nat.lt_of_succ_lt_succ hi) hsi
      · rcases ihP2 with ⟨heq, hge⟩ | ⟨k, hk, hks, hkeq, hklt, hkfirst⟩
        · refine Or.inl ⟨heq, ?_⟩
          intro i hi hsi
          cases i with
          | zero => exact absurd hsi (by simp [hs'])
          | succ i => exact hge i (Nat.lt_of_succ_lt_succ hi) hsi
        · refine Or.inr ⟨k + 1, Nat.succ_lt_succ hk, hks, hkeq, hklt, ?_⟩
          intro j hj hsj
          cases j with
          | zero => exact absurd hsj (by simp [hs'])
          | succ j => exact hkfirst j (Nat.lt_of_succ_lt_succ hj) hsj

/-- Total fanout weight of a net list (an upper bound for every prefix-sum
entry, hence for every score). -/
def totalFanout (nets : List PNet) : Int :=
  (nets.map (fun n => (n.fanouts : Int))).sum

/-- Any conditional fanout sum lies between `0` and the total fanout. -/
theorem condSum_bounds (nets : List PNet) (p : PNet → Prop) [DecidablePred p] :
    0 ≤ (nets.map (fun n => if p n then (n.fanouts : Int) else 0)).sum ∧
    (nets.map (fun n => if p n then (n.fanouts : Int) else 0)).sum ≤ totalFanout nets := by
  induction nets with
  | nil => simp [totalFanout]
  | cons n rest ih =>
    simp only [List.map_cons, List.sum_cons, totalFanout] at *
    have hn : (0:Int) ≤ (n.fanouts : Int) := Int.natCast_nonneg _
    constructor
    · split_ifs <;> omega
    · split_ifs <;> omega

/-- Every candidate inspected by the scans has a score between `0` and the
total fanout weight. -/
theorem cand_score_bounds (nets : List PNet) (x1 y1 x2 y2 : Int) :
    ∀ c ∈ cutCands nets x1 y1 x2 y2, 0 ≤ c.score ∧ c.score ≤ totalFanout nets := by
  intro c hc
  rcases List.mem_append.mp hc with hcx | hcy
  · obtain ⟨x, _, rfl⟩ := List.mem_map.mp hcx
    have hb := condSum_bounds nets (fun n => coordStart x1 n.bb.xmin ≤ (x : Int))
    have ha := condSum_bounds nets (fun n => (x : Int) < coordEnd x1 x2 n.bb.xmax)
    rw [show (nets.map fun n => if coordStart x1 n.bb.xmin ≤ (x : Int)
        then (n.fanouts : Int) else 0).sum = x_total_before nets x1 (x : Int) from rfl] at hb
    rw [show (nets.map fun n => if (x : Int) < coordEnd x1 x2 n.bb.xmax
        then (n.fanouts : Int) else 0).sum = x_total_after nets x1 x2 (x : Int) from rfl] at ha
    constructor
    · exact abs_nonneg _
    · exact abs_le.mpr ⟨by omega, by omega⟩
  · obtain ⟨y, _, rfl⟩ := List.mem_map.mp hcy
    have hb := condSum_bounds nets (fun n => coordStart y1 n.bb.ymin ≤ (y : Int))
    have ha := condSum_bounds nets (fun n => (y : Int) < coordEnd y1 y2 n.bb.ymax)
    rw [show (nets.map fun n => if coordStart y1 n.bb.ymin ≤ (y : Int)
        then (n.fanouts : Int) else 0).sum = y_total_before nets y1 (y : Int) from rfl] at hb
    rw [show (nets.map fun n => if (y : Int) < coordEnd y1 y2 n.bb.ymax
        then (n.fanouts : Int) else 0).sum = y_total_after nets y1 y2 (y : Int) from rfl] at ha
    constructor
    · exact abs_nonneg _
    · exact abs_le.mpr ⟨by omega, by omega⟩

/-- Claim C6: cut positions where `before == max_before` or
`after == max_after` (no fanout weight on one side) are rejected on both
axes (rejection is recorded in the `survives` field of the scanned
candidates); among the surviving candidates the fold picks the
`(axis, pos)` minimizing `|before − after|`, the X axis being scanned
before Y and the first minimum winning ties; and when no candidate
survives, `build_helper` makes the node a leaf holding all candidate nets. -/
theorem claim6_cutline_selection (nets : List PNet) (x1 y1 x2 y2 : Int) (fuel : Nat)
    (hne : nets ≠ []) (hx : x1 < x2) (hy : y1 < y2)
    (htot : totalFanout nets < 2147483647) :
    ((∀ c ∈ cutCands nets x1 y1 x2 y2, c.survives = false) →
      chooseCutline nets x1 y1 x2 y2 = initBest ∧
      build_helper (fuel + 1) nets x1 y1 x2 y2 =
        Except.ok (some (PTree.mk nets none none Axis.X (-1)))) ∧
    (∀ k (hk : k < (cutCands nets x1 y1 x2 y2).length),
      ((cutCands nets x1 y1 x2 y2).get ⟨k, hk⟩).survives = true →
      ∃ j, ∃ hj : j < (cutCands nets x1 y1 x2 y2).length,
        ((cutCands nets x1 y1 x2 y2).get ⟨j, hj⟩).survives = true ∧
        chooseCutline nets x1 y1 x2 y2 =
          ⟨((cutCands nets x1 y1 x2 y2).get ⟨j, hj⟩).score,
           ((cutCands nets x1 y1 x2 y2).get ⟨j, hj⟩).pos,
           ((cutCands nets x1 y1 x2 y2).get ⟨j, hj⟩).axis⟩ ∧
        (∀ i (hi : i < (cutCands nets x1 y1 x2 y2).length),
          ((cutCands nets x1 y1 x2 y2).get ⟨i, hi⟩).survives = true →
          ((cutCands nets x1 y1 x2 y2).get ⟨j, hj⟩).score ≤
            ((cutCands nets x1 y1 x2 y2).get ⟨i, hi⟩).score) ∧
        (∀ i (hi : i < j),
          ((cutCands nets x1 y1 x2 y2).get ⟨i, hi.trans hj⟩).survives = true →
          ((cutCands nets x1 y1 x2 y2).get ⟨j, hj⟩).score <
            ((cutCands nets x1 y1 x2 y2).get ⟨i, hi.trans hj⟩).score)) := by
  constructor
  · intro hall
    have hcc : chooseCutline nets x1 y1 x2 y2 = initBest :=
      foldBest_no_survivor (cutCands nets x1 y1 x2 y2) initBest hall
    refine ⟨hcc, ?_⟩
    rw [build_helper]
    rw [if_neg (by simpa [List.isEmpty_iff] using hne)]
    rw [if_neg (by omega)]
    simp only [hcc]
    rfl
  · intro k hk hks
    obtain ⟨hP1, hP2⟩ := foldBest_spec (cutCands nets x1 y1 x2 y2) initBest
    rcases hP2 with ⟨heq, hge⟩ | ⟨j, hj, hjs, hjeq, hjlt, hjfirst⟩
    · exfalso
      have hbound := cand_score_bounds nets x1 y1 x2 y2
        ((cutCands nets x1 y1 x2 y2).get ⟨k, hk⟩) (List.get_mem _ _ hk)
      have := hge k hk hks
      simp only [initBest] at this
      omega
    · refine ⟨j, hj, hjs, hjeq, ?_, ?_⟩
      · intro i hi his
        have := hP1 i hi his
        rw [hjeq] at this
        exact this
      · intro i hi his
        have := hjfirst i hi his
        rw [hjeq] at this
        exact this

/-- Concrete instantiation of claim C6: a single net spanning the whole
region rejects every candidate position, so the builder produces a root
leaf holding that net. -/
theorem claim6_witness :
    chooseCutline [netFull] 0 0 5 5 = initBest ∧
    build_helper 1 [netFull] 0 0 5 5 =
      Except.ok (some (PTree.mk [netFull] none none Axis.X (-1))) :=
  (claim6_cutline_selection [netFull] 0 0 5 5 0 (by simp) (by norm_num) (by norm_num)
    (by decide)).1 (by decide)

/-! ## Net decomposition (route_parallel.cpp, src/unnamed/part_000) -/

/-- `constexpr size_t MIN_DECOMP_BIN_WIDTH = 5`. -/
def MIN_DECOMP_BIN_WIDTH : Nat := 5

/-- `constexpr size_t MAX_DECOMP_REROUTE = 5`. -/
def MAX_DECOMP_REROUTE : Nat := 5

/-- `which_side`: which side of the cutline `axis = cutline_pos + 0.5` an RR
node is on, judged by its `(xlow, ylow)` corner; `coord > cutline_pos` is
RIGHT. -/
def which_side (coord : Int × Int) (cutline_pos : Int) (axis : Axis) : Side :=
  match axis with
  | Axis.X => if coord.1 > cutline_pos then Side.RIGHT else Side.LEFT
  | Axis.Y => if coord.2 > cutline_pos then Side.RIGHT else Side.LEFT

/-- `clip_to_side`: clip a bbox to one side of the cutline. -/
def clip_to_side (bb : TBB) (axis : Axis) (cutline_pos : Int) (side : Side) : TBB :=
  match axis, side with
  | Axis.X, Side.LEFT => { bb with xmax := cutline_pos }
  | Axis.X, Side.RIGHT => { bb with xmin := cutline_pos + 1 }
  | Axis.Y, Side.LEFT => { bb with ymax := cutline_pos }
  | Axis.Y, Side.RIGHT => { bb with ymin := cutline_pos + 1 }

/-- `VirtualNet`: a `(net_id, clipped_bbox)` pair (declared outside the
provided slice; fields per the spec's data model and their uses in
route_parallel.cpp). -/
structure VirtualNet where
  net_id : Nat
  clipped_bb : TBB
deriving DecidableEq, Repr

/-- `make_decomposed_pair`: split a net into two `VirtualNet` halves around
the cutline.  `source_side` is the side of the route-tree root; the returned
tuple puts the LEFT-clipped half first. -/
def make_decomposed_pair (net_id : Nat) (root_coord : Int × Int) (bb : TBB)
    (cutline_pos : Int) (cutline_axis : Axis) : VirtualNet × VirtualNet :=
  let source_side := which_side root_coord cutline_pos cutline_axis
  let source_half : VirtualNet := ⟨net_id, clip_to_side bb cutline_axis cutline_pos source_side⟩
  let sink_half : VirtualNet := ⟨net_id, clip_to_side bb cutline_axis cutline_pos source_side.flip⟩
  match source_side with
  | Side.RIGHT => (sink_half, source_half)
  | Side.LEFT => (source_half, sink_half)

/-- Modelled from the spec: `vtr::log2_ceil` (vtr_math, not in the provided
slice), the ceiling of the base-2 logarithm, used as
"`level ≤ ⌈log2(num_workers)⌉ − 1`". -/
def log2_ceil (n : Nat) : Nat := if n ≤ 1 then 0 else Nat.log2 (n - 1) + 1

/-- The level test of `should_decompose_net`:
`level > vtr::log2_ceil(num_workers) - 1` compares the `size_t` level with
an `int`; the `int` converts to `size_t`, so a `-1` cap (when
`log2_ceil = 0`) wraps around and the test can never be true. -/
def levelCapExceeded (level : Nat) (num_workers : Nat) : Bool :=
  if log2_ceil num_workers = 0 then false
  else decide (level > log2_ceil num_workers - 1)

/-- `is_worth_decomposing`: would decomposing this net yield any
parallelism?  `num_terminals` is `route_ctx.net_rr_terminals[net_id].size()`
(the source at index 0 plus one entry per sink).  When `W < 5` or `H < 5`
the bin count is zero and the C++ `W / bins_x` divides by zero; that
undefined behaviour is `none`. -/
def is_worth_decomposing (bb : TBB) (num_terminals : Nat) (cutline_pos : Int)
    (axis : Axis) : Option Bool :=
  let W : Nat := (bb.xmax - bb.xmin + 1).toNat
  let H : Nat := (bb.ymax - bb.ymin + 1).toNat
  let bins_x : Nat := W / MIN_DECOMP_BIN_WIDTH
  let bins_y : Nat := H / MIN_DECOMP_BIN_WIDTH
  if bins_x = 0 ∨ bins_y = 0 then none
  else
    let bin_width_x : Nat := W / bins_x + 1
    let bin_width_y : Nat := H / bins_y + 1
    if W < bin_width_x ∨ H < bin_width_y then some false
    else if (match axis with
      | Axis.X => decide (bb.xmax - cutline_pos < (bin_width_x : Int)) ||
          decide (cutline_pos - bb.xmin + 1 < (bin_width_y : Int))
      | Axis.Y => decide (bb.ymax - cutline_pos < (bin_width_x : Int)) ||
          decide (cutline_pos - bb.ymin + 1 < (bin_width_y : Int)) : Bool) then some false
    else
      let n_samples : Nat := max (2 * (bins_x + bins_y) - 4) 4
      if num_terminals ≤ n_samples + 2 then some false
      else some true

/-- `should_decompose_net`: the four eligibility gates in source order
(level cap, two-stage clock, retry cap, worth decomposing). -/
def should_decompose_net (level num_workers : Nat)
    (net_is_global two_stage_clock_routing : Bool) (decomp_retries : Nat)
    (bb : TBB) (num_terminals : Nat) (cutline_pos : Int) (axis : Axis) :
    Option Bool :=
  if levelCapExceeded level num_workers then some false
  else if net_is_global && two_stage_clock_routing then some false
  else if decomp_retries ≥ MAX_DECOMP_REROUTE then some false
  else is_worth_decomposing bb num_terminals cutline_pos axis

/-- Sentinel written into a sample bin reached by existing routing
(`constexpr int REACHED = -1`). -/
def REACHED : Int := -1

/-- Bin of a coordinate inside the net bbox:
`(xlow - net_bb.xmin) / bin_width_x` and likewise for y.  The callers of
`get_decomposition_isinks` guarantee the coordinate lies inside the bbox
(the theorems below carry that hypothesis), matching the C++ `size_t`
division of a non-negative difference. -/
def binOf (bb : TBB) (bwx bwy : Nat) (coord : Int × Int) : Nat × Nat :=
  ((coord.1 - bb.xmin).toNat / bwx, (coord.2 - bb.ymin).toNat / bwy)

/-- Pointwise update of the sample table (`samples[x][y] = v`). -/
def updSamples (f : Nat × Nat → Int) (b : Nat × Nat) (v : Int) : Nat × Nat → Int :=
  fun b2 => if b2 = b then v else f b2

/-- First loop of `get_decomposition_isinks`: mark bins with already reached
sinks; `none` models the early `return out` (with `out` still empty) taken
when `samples_to_find` hits zero. -/
def markReached (term : Nat → Int × Int) (bb : TBB) (bwx bwy : Nat) :
    List Nat → (Nat × Nat → Int) → Nat → Option ((Nat × Nat → Int) × Nat)
  | [], samples, samples_to_find => some (samples, samples_to_find)
  | isink :: rest, samples, samples_to_find =>
    if samples_to_find = 0 then none
    else if samples (binOf bb bwx bwy (term isink)) ≠ REACHED then
      markReached term bb bwx bwy rest
        (updSamples samples (binOf bb bwx bwy (term isink)) REACHED) (samples_to_find - 1)
    else markReached term bb bwx bwy rest samples samples_to_find

/-- Second loop of `get_decomposition_isinks`: spatially sample the
remaining targets, taking the first (most critical, since the caller sorted
them) target that falls into a still-empty (`NONE = 0`) bin. -/
def sampleTargets (term : Nat → Int × Int) (bb : TBB) (bwx bwy : Nat) :
    List Nat → (Nat × Nat → Int) → Nat → List Nat → List Nat
  | [], _, _, out => out
  | isink :: rest, samples, samples_to_find, out =>
    if samples_to_find = 0 then out
    else if samples (binOf bb bwx bwy (term isink)) = 0 then
      sampleTargets term bb bwx bwy rest
        (updSamples samples (binOf bb bwx bwy (term isink)) (isink : Int))
        (samples_to_find - 1) (out ++ [isink])
    else sampleTargets term bb bwx bwy rest samples samples_to_find out

/-- `get_decomposition_isinks`: spatially sample decomposition sinks.
`term` maps a terminal index (0 = source, `1..K` = sinks) to the
`(xlow, ylow)` of its RR node; `reached` is
`tree.get_reached_isinks()` and `remaining_targets` is assumed sorted by
descending criticality by the caller, as in the source.  Callers reach this
code only after `is_worth_decomposing`, so `bins_x, bins_y ≥ 1` (the C++
would divide by zero otherwise; Lean's total `/ 0 = 0` is never exercised
under the theorems' hypotheses). -/
def get_decomposition_isinks (bb : TBB) (term : Nat → Int × Int)
    (reached remaining_targets : List Nat) : List Nat :=
  let width : Nat := (bb.xmax - bb.xmin + 1).toNat
  let height : Nat := (bb.ymax - bb.ymin + 1).toNat
  let bins_x : Nat := width / MIN_DECOMP_BIN_WIDTH
  let bins_y : Nat := height / MIN_DECOMP_BIN_WIDTH
  let samples_to_find : Nat := bins_x * bins_y
  let bin_width_x : Nat := width / bins_x + 1
  let bin_width_y : Nat := height / bins_y + 1
  match markReached term bb bin_width_x bin_width_y reached (fun _ => 0) samples_to_find with
  | none => []
  | some (samples, samples_to_find) =>
    sampleTargets term bb bin_width_x bin_width_y remaining_targets samples samples_to_find []

/-- The route tree state `route_and_decompose` works on: the root
(source) RR-node coordinate, `get_reached_isinks()` and
`get_remaining_isinks()`. -/
structure RTreeM where
  rootCoord : Int × Int
  reached : List Nat
  remaining : List Nat
deriving DecidableEq, Repr

/-- Modelled from the spec: the external connection-router collaborator
`timing_driven_route_sink` (route_timing.cpp, not in the provided slice)
"routes one sink within a given bbox"; on success the route tree is
extended to reach that sink.  `succ` is the oracle saying which sink
connections succeed. -/
def routeSkeleton (succ : Nat → Bool) : List Nat → RTreeM → RTreeM × Bool
  | [], t => (t, true)
  | isink :: rest, t =>
    if succ isink then
      routeSkeleton succ rest
        { t with reached := isink :: t.reached, remaining := t.remaining.erase isink }
    else (t, false)

/-- Result bundle of `route_and_decompose`: the optional pair of virtual
nets, the route tree state after skeleton routing, and the net's
`decomp_retries` counter. -/
structure DecompOut where
  result : Option (VirtualNet × VirtualNet)
  tree : RTreeM
  retries : Nat
deriving DecidableEq, Repr

/-- `route_and_decompose`: skip nets that need no routing
(`should_really_route_net`, passed as the evaluated boolean), select the
skeleton sinks with `get_decomposition_isinks` (the source sorts
`remaining_targets` by descending criticality first; the list in `t` is
taken as already sorted), route them one by one aborting on the first
failure (`return vtr::nullopt`), and only on full success increment
`decomp_retries` and return `make_decomposed_pair`. -/
def route_and_decompose (should_route : Bool) (succ : Nat → Bool) (net_id : Nat)
    (bb : TBB) (term : Nat → Int × Int) (t : RTreeM) (decomp_retries : Nat)
    (cutline_pos : Int) (cutline_axis : Axis) : DecompOut :=
  if !should_route then ⟨none, t, decomp_retries⟩
  else
    match routeSkeleton succ (get_decomposition_isinks bb term t.reached t.remaining) t with
    | (t2, false) => ⟨none, t2, decomp_retries⟩
    | (t2, true) =>
      ⟨some (make_decomposed_pair net_id t2.rootCoord bb cutline_pos cutline_axis),
        t2, decomp_retries + 1⟩

/-- Componentwise containment of bounding boxes. -/
def insideBB (a b : TBB) : Prop :=
  b.xmin ≤ a.xmin ∧ a.xmax ≤ b.xmax ∧ b.ymin ≤ a.ymin ∧ a.ymax ≤ b.ymax

instance (a b : TBB) : Decidable (insideBB a b) := by
  unfold insideBB; infer_instance

/-- Strict containment: contained and not equal. -/
def strictlyInside (a b : TBB) : Prop := insideBB a b ∧ a ≠ b

instance (a b : TBB) : Decidable (strictlyInside a b) := by
  unfold strictlyInside; infer_instance

/-- Concrete decomposition scenario: a `15 × 15` net bbox. -/
def bb3 : TBB := ⟨0, 14, 0, 14⟩

/-- Terminal coordinates for the scenario: source at `(0,0)` (index 0) and
ten sinks, all with `x ≤ 7` (on the left of the `X = 7.5` cutline). -/
def term3 : Nat → Int × Int
  | 1 => (0, 1)
  | 2 => (1, 6)
  | 3 => (2, 11)
  | 4 => (3, 2)
  | 5 => (4, 8)
  | 6 => (5, 13)
  | 7 => (6, 4)
  | 8 => (7, 9)
  | 9 => (0, 14)
  | 10 => (3, 7)
  | _ => (0, 0)

/-- Route tree state for the scenario: nothing reached yet, all ten sinks
remaining. -/
def tree3 : RTreeM := ⟨(0, 0), [], [1, 2, 3, 4, 5, 6, 7, 8, 9, 10]⟩

/-- The pair returned by `make_decomposed_pair` always carries the net's
identity and is ordered LEFT-clipped half first, RIGHT-clipped half
second, whichever side the source is on. -/
theorem make_decomposed_pair_ordered (net_id : Nat) (root_coord : Int × Int)
    (bb : TBB) (pos : Int) (axis : Axis) :
    (make_decomposed_pair net_id root_coord bb pos axis).1 =
      ⟨net_id, clip_to_side bb axis pos Side.LEFT⟩ ∧
    (make_decomposed_pair net_id root_coord bb pos axis).2 =
      ⟨net_id, clip_to_side bb axis pos Side.RIGHT⟩ := by
  unfold make_decomposed_pair
  rcases h : which_side root_coord pos axis <;> simp [Side.flip]

/-- Cast form of `1 ≤ n + 1`. -/
theorem one_le_cast_succ (n : Nat) : (1 : Int) ≤ ((n + 1 : Nat) : Int) := by
  exact_mod_cast Nat.succ_le_succ (Nat.zero_le n)

/-- A positive `is_worth_decomposing` verdict leaves at least one full bin
on each side of the cutline, hence at least one unit of bbox beyond the
cutline position on the max side and the position at or above the min. -/
theorem is_worth_margins (bb : TBB) (nterm : Nat) (pos : Int) (axis : Axis)
    (h : is_worth_decomposing bb nterm pos axis = some true) :
    (axis = Axis.X → bb.xmin ≤ pos ∧ pos < bb.xmax) ∧
    (axis = Axis.Y → bb.ymin ≤ pos ∧ pos < bb.ymax) := by
  simp only [is_worth_decomposing, MIN_DECOMP_BIN_WIDTH] at h
  split_ifs at h with h1 h2 h3 h4
  · exact absurd h (by simp)
  · exact absurd h (by simp)
  · exact absurd h (by simp)
  rcases axis with _ | _
  · simp only [Bool.or_eq_true, decide_eq_true_eq, not_or] at h3
    obtain ⟨ha, hb⟩ := h3
    rw [not_lt] at ha hb
    refine ⟨fun _ => ⟨?_, ?_⟩, fun hax => absurd hax (by simp)⟩
    · have h1b := one_le_cast_succ
        ((bb.ymax - bb.ymin + 1).toNat / ((bb.ymax - bb.ymin + 1).toNat / 5))
      linarith
    · have h1a := one_le_cast_succ
        ((bb.xmax - bb.xmin + 1).toNat / ((bb.xmax - bb.xmin + 1).toNat / 5))
      linarith
  · simp only [Bool.or_eq_true, decide_eq_true_eq, not_or] at h3
    obtain ⟨ha, hb⟩ := h3
    rw [not_lt] at ha hb
    refine ⟨fun hax => absurd hax (by simp), fun _ => ⟨?_, ?_⟩⟩
    · have h1b := one_le_cast_succ
        ((bb.ymax - bb.ymin + 1).toNat / ((bb.ymax - bb.ymin + 1).toNat / 5))
      linarith
    · have h1a := one_le_cast_succ
        ((bb.xmax - bb.xmin + 1).toNat / ((bb.xmax - bb.xmin + 1).toNat / 5))
      linarith

/-- Claim C3 (counterexample to the crossing conjunct): at a concrete,
decomposition-eligible input whose sinks all lie left of the cutline,
`route_and_decompose` succeeds while every reached sink — and the source —
is on the LEFT side, so the route tree does not reach a sink on each side
of the cutline.  The source's `is_routing_over_cutline` is defined but
never called. -/
theorem claim3_counterexample :
    should_decompose_net 0 4 false false 0 bb3 11 7 Axis.X = some true ∧
    (route_and_decompose true (fun _ => true) 42 bb3 term3 tree3 0 7 Axis.X).result.isSome
      = true ∧
    which_side tree3.rootCoord 7 Axis.X = Side.LEFT ∧
    ∀ s ∈ (route_and_decompose true (fun _ => true) 42 bb3 term3 tree3 0 7 Axis.X).tree.reached,
      which_side (term3 s) 7 Axis.X = Side.LEFT :=
  ⟨by decide, by decide, by decide, by decide⟩

/-- Claim C3 (amended): whenever `route_and_decompose` succeeds on a
decomposition-eligible net (`is_worth_decomposing` holds, as the dispatcher
checks first), both returned virtual nets carry the net's identity, their
clipped bboxes are strictly contained in the net's bbox and lie on opposite
sides of the cutline (left clip sets `max[A] = pos`, right clip sets
`min[A] = pos + 1`), and the pair is ordered left/up half first — but the
route tree need not reach a sink on each side of the cutline. -/
theorem claim3_decomposed_pair_shape (should_route : Bool) (succ : Nat → Bool)
    (net_id : Nat) (bb : TBB) (term : Nat → Int × Int) (t : RTreeM)
    (retries : Nat) (pos : Int) (axis : Axis) (nterm : Nat) (v1 v2 : VirtualNet)
    (hres : (route_and_decompose should_route succ net_id bb term t retries pos axis).result
      = some (v1, v2))
    (hworth : is_worth_decomposing bb nterm pos axis = some true) :
    v1.net_id = net_id ∧ v2.net_id = net_id ∧
    v1.clipped_bb = clip_to_side bb axis pos Side.LEFT ∧
    v2.clipped_bb = clip_to_side bb axis pos Side.RIGHT ∧
    strictlyInside v1.clipped_bb bb ∧ strictlyInside v2.clipped_bb bb ∧
    (axis = Axis.X → v1.clipped_bb.xmax = pos ∧ v2.clipped_bb.xmin = pos + 1) ∧
    (axis = Axis.Y → v1.clipped_bb.ymax = pos ∧ v2.clipped_bb.ymin = pos + 1) := by
  have hpair : (v1, v2) = make_decomposed_pair net_id
      ((routeSkeleton succ (get_decomposition_isinks bb term t.reached t.remaining) t).1.rootCoord)
      bb pos axis := by
    cases should_route
    · exact Option.noConfusion hres
    · rw [route_and_decompose] at hres
      rw [show (!true) = false from rfl] at hres
      rw [if_neg (by simp)] at hres
      rcases hsk : routeSkeleton succ (get_decomposition_isinks bb term t.reached t.remaining) t
        with ⟨t2, b⟩
      rw [hsk] at hres
      cases b
      · exact Option.noConfusion hres
      · have heq : some (make_decomposed_pair net_id t2.rootCoord bb pos axis)
            = some (v1, v2) := hres
        exact (Option.some.inj heq).symm
  obtain ⟨ho1, ho2⟩ := make_decomposed_pair_ordered net_id
    ((routeSkeleton succ (get_decomposition_isinks bb term t.reached t.remaining) t).1.rootCoord)
    bb pos axis
  have hv1 : v1 = ⟨net_id, clip_to_side bb axis pos Side.LEFT⟩ := by
    rw [show v1 = (v1, v2).1 from rfl, hpair]; exact ho1
  have hv2 : v2 = ⟨net_id, clip_to_side bb axis pos Side.RIGHT⟩ := by
    rw [show v2 = (v1, v2).2 from rfl, hpair]; exact ho2
  obtain ⟨hmx, hmy⟩ := is_worth_margins bb nterm pos axis hworth
  subst hv1; subst hv2
  rcases axis with _ | _
  · obtain ⟨hlo, hhi⟩ := hmx rfl
    refine ⟨rfl, rfl, rfl, rfl, ?_, ?_, fun _ => ⟨rfl, rfl⟩, fun hax => absurd hax (by simp)⟩
    · refine ⟨⟨le_refl _, by simp [clip_to_side]; omega, le_refl _, le_refl _⟩, ?_⟩
      intro heq
      have := congrArg TBB.xmax heq
      simp [clip_to_side] at this
      omega
    · refine ⟨⟨by simp [clip_to_side]; omega, le_refl _, le_refl _, le_refl _⟩, ?_⟩
      intro heq
      have := congrArg TBB.xmin heq
      simp [clip_to_side] at this
      omega
  · obtain ⟨hlo, hhi⟩ := hmy rfl
    refine ⟨rfl, rfl, rfl, rfl, ?_, ?_, fun hax => absurd hax (by simp), fun _ => ⟨rfl, rfl⟩⟩
    · refine ⟨⟨le_refl _, le_refl _, le_refl _, by simp [clip_to_side]; omega⟩, ?_⟩
      intro heq
      have := congrArg TBB.ymax heq
      simp [clip_to_side] at this
      omega
    · refine ⟨⟨le_refl _, le_refl _, by simp [clip_to_side]; omega, le_refl _⟩, ?_⟩
      intro heq
      have := congrArg TBB.ymin heq
      simp [clip_to_side] at this
      omega

/-- Concrete instantiation of the amended claim C3 on the scenario input:
the two clipped halves are strictly inside the net bbox. -/
theorem claim3_witness :
    strictlyInside (TBB.mk 0 7 0 14) bb3 ∧ strictlyInside (TBB.mk 8 14 0 14) bb3 := by
  have h := claim3_decomposed_pair_shape true (fun _ => true) 42 bb3 term3 tree3 0 7 Axis.X 11
    ⟨42, ⟨0, 7, 0, 14⟩⟩ ⟨42, ⟨8, 14, 0, 14⟩⟩ (by rfl) (by decide)
  exact ⟨h.2.2.2.2.1, h.2.2.2.2.2.1⟩

/-- Claim C7 (counterexample): a net with a `15 × 15` bbox has
`bins_x = bins_y = 3` and `n_samples = max(2·(3+3) − 4, 4) = 8`; with
exactly `n_samples + 2 = 10` sinks (11 RR terminals, source included) the
claim says the net is never decomposed ("more than `max(...) + 2` sinks"
required), yet `is_worth_decomposing` — and the full `should_decompose_net`
gate — accepts it, because the code compares the terminal count
(sinks + 1) against `n_samples + 2`. -/
theorem claim7_counterexample :
    is_worth_decomposing ⟨0, 14, 0, 14⟩ 11 7 Axis.X = some true ∧
    should_decompose_net 0 4 false false 0 ⟨0, 14, 0, 14⟩ 11 7 Axis.X = some true ∧
    ¬(11 - 1 > max (2 * ((15 : Nat) / 5 + (15 : Nat) / 5) - 4) 4 + 2) :=
  ⟨by decide, by decide, by decide⟩

/-- Claim C7 (amended): `is_worth_decomposing` (and hence
`should_decompose_net`) returns true only if the net has more than
`max(2·(bins_x + bins_y) − 4, 4) + 1` sinks — equivalently, only if its RR
terminal count (source + sinks) exceeds `max(...) + 2`, which is the
comparison the code makes (`net_rr_terminals.size() <= n_samples + 2`). -/
theorem claim7_sink_threshold :
    (∀ (bb : TBB) (num_terminals : Nat) (pos : Int) (axis : Axis),
      is_worth_decomposing bb num_terminals pos axis = some true →
      num_terminals - 1 >
        max (2 * ((bb.xmax - bb.xmin + 1).toNat / MIN_DECOMP_BIN_WIDTH
          + (bb.ymax - bb.ymin + 1).toNat / MIN_DECOMP_BIN_WIDTH) - 4) 4 + 1) ∧
    (∀ (level num_workers : Nat) (g two : Bool) (retries : Nat) (bb : TBB)
      (num_terminals : Nat) (pos : Int) (axis : Axis),
      should_decompose_net level num_workers g two retries bb num_terminals pos axis
        = some true →
      is_worth_decomposing bb num_terminals pos axis = some true) := by
  constructor
  · intro bb nterm pos axis h
    simp only [is_worth_decomposing] at h
    split_ifs at h with h1 h2 h3 h4
    · exact absurd h (by simp)
    · exact absurd h (by simp)
    · exact absurd h (by simp)
    · rw [not_le] at h4
      omega
  · intro level nw g two retries bb nterm pos axis h
    simp only [should_decompose_net] at h
    split_ifs at h with h1 h2 h3
    · exact absurd h (by simp)
    · exact absurd h (by simp)
    · exact absurd h (by simp)
    · exact h

/-- Concrete instantiation of the amended claim C7: with 12 terminals
(11 sinks) the same bbox passes the gate and indeed `11 > 9`. -/
theorem claim7_witness :
    12 - 1 > max (2 * (((14 : Int) - 0 + 1).toNat / MIN_DECOMP_BIN_WIDTH
      + ((14 : Int) - 0 + 1).toNat / MIN_DECOMP_BIN_WIDTH) - 4) 4 + 1 :=
  claim7_sink_threshold.1 ⟨0, 14, 0, 14⟩ 12 7 Axis.X (by decide)

/-- Claim C8 (counterexample to the retry-increment conjunct): at a concrete
input where skeleton sinks are selected and the router oracle fails every
connection, `route_and_decompose` returns "no decomposition" but the net's
`decomp_retries` counter is left at its input value `0`, not incremented —
the increment `ctx.decomp_retries[net_id]++` sits on the success path only. -/
theorem claim8_counterexample :
    get_decomposition_isinks bb3 term3 tree3.reached tree3.remaining ≠ [] ∧
    (route_and_decompose true (fun _ => false) 42 bb3 term3 tree3 0 7 Axis.X).result = none ∧
    (route_and_decompose true (fun _ => false) 42 bb3 term3 tree3 0 7 Axis.X).retries = 0 :=
  ⟨by decide, by decide, by decide⟩

/-- Claim C8 (amended): if routing any selected skeleton sink fails,
`route_and_decompose` aborts and returns "no decomposition" (the net is
then routed directly at the current node by the dispatcher) and the net's
`decomp_retries` counter is left unchanged; the counter is incremented
exactly when the whole skeleton routes successfully. -/
theorem claim8_skeleton_failure (succ : Nat → Bool) (net_id : Nat) (bb : TBB)
    (term : Nat → Int × Int) (t : RTreeM) (retries : Nat) (pos : Int) (axis : Axis) :
    ((routeSkeleton succ (get_decomposition_isinks bb term t.reached t.remaining) t).2
        = false →
      (route_and_decompose true succ net_id bb term t retries pos axis).result = none ∧
      (route_and_decompose true succ net_id bb term t retries pos axis).retries = retries) ∧
    ((routeSkeleton succ (get_decomposition_isinks bb term t.reached t.remaining) t).2
        = true →
      (route_and_decompose true succ net_id bb term t retries pos axis).retries
        = retries + 1) := by
  rw [route_and_decompose]
  rw [show (!true) = false from rfl]
  rw [if_neg (by simp)]
  rcases hsk : routeSkeleton succ (get_decomposition_isinks bb term t.reached t.remaining) t
    with ⟨t2, b⟩
  cases b
  · exact ⟨fun _ => ⟨rfl, rfl⟩, fun hc => Bool.noConfusion hc⟩
  · exact ⟨fun hc => Bool.noConfusion hc, fun _ => rfl⟩

/-- Concrete instantiation of the amended claim C8: failing skeleton
routing leaves the counter at its input value `3`. -/
theorem claim8_witness :
    (route_and_decompose true (fun _ => false) 7 bb3 term3 tree3 3 7 Axis.X).result = none ∧
    (route_and_decompose true (fun _ => false) 7 bb3 term3 tree3 3 7 Axis.X).retries = 3 :=
  (claim8_skeleton_failure (fun _ => false) 7 bb3 term3 tree3 3 7 Axis.X).1 (by decide)

/-! ## Dispatcher (`decompose_route_partition_tree_helper` and friends) -/

/-- Modelled from the spec: `NetResultFlags` (route_timing.h, outside the
provided slice): per-net result bits `{ success, retry_with_full_bb,
was_rerouted }`, all defaulting to false. -/
structure NetResultFlags where
  success : Bool := false
  retry_with_full_bb : Bool := false
  was_rerouted : Bool := false
deriving DecidableEq, Repr

/-- `should_really_route_net`: the external queries
(`budgeting_inf.if_set()`, `get_should_reroute`, the float test
`worst_negative_slack != 0`, `net_status.is_fixed`, `net_is_ignored`,
`should_route_net`) enter as evaluated booleans. -/
def should_really_route_net (budget_if_set get_should_reroute wns_nonzero
    is_fixed is_ignored should_route_verdict : Bool) : Bool :=
  let reroute_for_hold := (budget_if_set && get_should_reroute) && wns_nonzero
  if is_fixed then false
  else if is_ignored then false
  else if !reroute_for_hold && !should_route_verdict then false
  else true

/-- `try_parallel_route_net`: skip (with `success = true` and default
flags) nets that need no routing; otherwise take the connection router's
flags (`timing_driven_route_net`, an external collaborator, enters as
`router_flags`) and unconditionally set `was_rerouted = true`. -/
def try_parallel_route_net (should_really : Bool) (router_flags : NetResultFlags) :
    NetResultFlags :=
  if !should_really then { success := true }
  else { router_flags with was_rerouted := true }

/-- What happened to one regular net at a node: either
`should_decompose_net` held and `route_and_decompose` produced a pair, or
the net fell through to `try_parallel_route_net`, whose inputs (the
`should_really_route_net` verdict and the router's flags) are recorded. -/
inductive NetOutcome where
  | decomposed (pair : VirtualNet × VirtualNet) : NetOutcome
  | direct (should_really : Bool) (router_flags : NetResultFlags) : NetOutcome

/-- Node-local and context state threaded through the two per-node loops of
`decompose_route_partition_tree_helper`: the node's `is_routable` and
`rerouted_nets` fields, the children's `virtual_nets` queues, and the
shared `ctx.nets_to_retry` / `ctx.decomp_retries`. -/
structure NodeDispatchState where
  is_routable : Bool
  rerouted_nets : List Nat
  left_virtual_nets : List VirtualNet
  right_virtual_nets : List VirtualNet
  nets_to_retry : List Nat
  decomp_retries : Nat → Nat

/-- The three flag-driven updates after `try_parallel_route_net` in the
regular-net loop: `!success && !retry` marks the node non-routable,
`was_rerouted` appends to the node's `rerouted_nets`, and
`retry_with_full_bb` appends to `ctx.nets_to_retry`. -/
def directStep (net_id : Nat) (flags : NetResultFlags) (s : NodeDispatchState) :
    NodeDispatchState :=
  let s1 := if !flags.success && !flags.retry_with_full_bb then
      { s with is_routable := false } else s
  let s2 := if flags.was_rerouted then
      { s1 with rerouted_nets := s1.rerouted_nets ++ [net_id] } else s1
  if flags.retry_with_full_bb then
    { s2 with nets_to_retry := s2.nets_to_retry ++ [net_id] } else s2

/-- The regular-net loop of `decompose_route_partition_tree_helper`
(the caller sorts `nets` by descending sink count first and initializes
`is_routable = true`, `rerouted_nets = []`): decomposed nets push their
halves onto the children and count as rerouted; otherwise the
`try_parallel_route_net` flags drive `is_routable`, `rerouted_nets` and
`nets_to_retry` exactly as in the source. -/
def routeNodeNets (outcome : Nat → NetOutcome) : List Nat → NodeDispatchState →
    NodeDispatchState
  | [], s => s
  | net_id :: rest, s =>
    match outcome net_id with
    | NetOutcome.decomposed (l, r) =>
      routeNodeNets outcome rest
        { s with
          left_virtual_nets := s.left_virtual_nets ++ [l],
          right_virtual_nets := s.right_virtual_nets ++ [r],
          rerouted_nets := s.rerouted_nets ++ [net_id] }
    | NetOutcome.direct should_really router_flags =>
      routeNodeNets outcome rest
        (directStep net_id (try_parallel_route_net should_really router_flags) s)

/-- The virtual-net loop of `decompose_route_partition_tree_helper`:
`route_virtual_net`'s flags enter as the oracle `vflags`.  A failure
without retry sets the underlying net's `decomp_retries` to
`MAX_DECOMP_REROUTE` (and does not touch `is_routable`); a retry request
appends to `nets_to_retry`. -/
def routeNodeVnets (vflags : VirtualNet → NetResultFlags) : List VirtualNet →
    NodeDispatchState → NodeDispatchState
  | [], s => s
  | v :: rest, s =>
    let flags := vflags v
    let s1 :=
      if !flags.success && !flags.retry_with_full_bb then
        { s with decomp_retries :=
            fun m => if m = v.net_id then MAX_DECOMP_REROUTE else s.decomp_retries m }
      else if flags.retry_with_full_bb then
        { s with nets_to_retry := s.nets_to_retry ++ [v.net_id] }
      else s
    routeNodeVnets vflags rest s1

/-- Per-node iteration results as read by the reduction
(`PartitionTreeNode.is_routable` / `rerouted_nets` after dispatch).  The
dispatcher asserts that a node has both children or none, so the tree of
processed nodes is leaf/branch shaped. -/
inductive ResultNode where
  | leaf (is_routable : Bool) (rerouted_nets : List Nat) : ResultNode
  | branch (is_routable : Bool) (rerouted_nets : List Nat)
      (left : ResultNode) (right : ResultNode) : ResultNode

/-- `RouteIterResults`: iteration results; `is_routable` defaults to true
and `rerouted_nets` to empty. -/
structure RouteIterResults where
  is_routable : Bool := true
  rerouted_nets : List Nat := []
deriving DecidableEq, Repr

/-- `reduce_partition_tree_helper`: AND `is_routable` and concatenate
`rerouted_nets` over the node, then descend left, then right. -/
def reduce_partition_tree_helper : ResultNode → RouteIterResults → RouteIterResults
  | ResultNode.leaf ir rr, results =>
    ⟨results.is_routable && ir, results.rerouted_nets ++ rr⟩
  | ResultNode.branch ir rr l r, results =>
    reduce_partition_tree_helper r
      (reduce_partition_tree_helper l ⟨results.is_routable && ir, results.rerouted_nets ++ rr⟩)

/-- Conjunction of `is_routable` over all nodes of a subtree. -/
def allRoutable : ResultNode → Bool
  | ResultNode.leaf ir _ => ir
  | ResultNode.branch ir _ l r => ir && allRoutable l && allRoutable r

/-- The per-net iteration state mutated by the retry loop at the end of
`decompose_route_partition_tree`. -/
structure IterNetState where
  route_bb : Nat → TBB
  decomp_retries : Nat → Nat

/-- The full-device bbox `{0, grid.width() - 1, 0, grid.height() - 1}`. -/
def fullDeviceBB (grid_width grid_height : Nat) : TBB :=
  ⟨0, (grid_width : Int) - 1, 0, (grid_height : Int) - 1⟩

/-- The post-dispatch loop of `decompose_route_partition_tree`: for every
net in `ctx.nets_to_retry`, grow its bbox to the full device and set its
`decomp_retries` to `MAX_DECOMP_REROUTE`. -/
def applyRetryUpdates (grid_width grid_height : Nat) (s : IterNetState)
    (nets_to_retry : List Nat) : IterNetState :=
  nets_to_retry.foldl (fun s net_id =>
    { route_bb := fun m => if m = net_id then fullDeviceBB grid_width grid_height
        else s.route_bb m,
      decomp_retries := fun m => if m = net_id then MAX_DECOMP_REROUTE
        else s.decomp_retries m }) s

/-! ## Dispatcher lemmas and claims C4, C9, C10 -/

/-- `directStep`'s effect on the node's routability flag. -/
theorem directStep_is_routable (net_id : Nat) (flags : NetResultFlags)
    (s : NodeDispatchState) :
    (directStep net_id flags s).is_routable =
      if !flags.success && !flags.retry_with_full_bb then false else s.is_routable := by
  simp only [directStep]
  split_ifs <;> rfl

/-- `directStep` only appends to `rerouted_nets`. -/
theorem directStep_rerouted_mono (net_id : Nat) (flags : NetResultFlags)
    (s : NodeDispatchState) (x : Nat) (hx : x ∈ s.rerouted_nets) :
    x ∈ (directStep net_id flags s).rerouted_nets := by
  simp only [directStep]
  split_ifs <;> simp [hx]

/-- A rerouted net lands in `rerouted_nets` at its own step. -/
theorem directStep_rerouted_mem (net_id : Nat) (flags : NetResultFlags)
    (s : NodeDispatchState) (h : flags.was_rerouted = true) :
    net_id ∈ (directStep net_id flags s).rerouted_nets := by
  simp only [directStep]
  split_ifs with h1 h2 h3 <;> simp_all

/-- A false routability flag is never reset inside the regular-net loop. -/
theorem routeNodeNets_keeps_false (outcome : Nat → NetOutcome) :
    ∀ (lst : List Nat) (s : NodeDispatchState), s.is_routable = false →
      (routeNodeNets outcome lst s).is_routable = false := by
  intro lst
  induction lst with
  | nil => intro s h; exact h
  | cons n rest ih =>
    intro s h
    simp only [routeNodeNets]
    rcases ho : outcome n with ⟨⟨l, r⟩⟩ | ⟨sr, rf⟩
    · exact ih _ h
    · apply ih
      rw [directStep_is_routable]
      split_ifs <;> simp [h]

/-- Membership in `rerouted_nets` is preserved by the regular-net loop. -/
theorem routeNodeNets_rerouted_mono (outcome : Nat → NetOutcome) :
    ∀ (lst : List Nat) (s : NodeDispatchState) (x : Nat), x ∈ s.rerouted_nets →
      x ∈ (routeNodeNets outcome lst s).rerouted_nets := by
  intro lst
  induction lst with
  | nil => intro s x hx; exact hx
  | cons n rest ih =>
    intro s x hx
    simp only [routeNodeNets]
    rcases ho : outcome n with ⟨⟨l, r⟩⟩ | ⟨sr, rf⟩
    · exact ih _ x (by simp [hx])
    · exact ih _ x (directStep_rerouted_mono n _ s x hx)

/-- The virtual-net loop never touches the node's routability flag. -/
theorem routeNodeVnets_is_routable (vflags : VirtualNet → NetResultFlags) :
    ∀ (lst : List VirtualNet) (s : NodeDispatchState),
      (routeNodeVnets vflags lst s).is_routable = s.is_routable := by
  intro lst
  induction lst with
  | nil => intro s; rfl
  | cons v rest ih =>
    intro s
    simp only [routeNodeVnets]
    rw [ih]
    split_ifs <;> rfl

/-- A `decomp_retries` entry already at the cap stays at the cap through the
virtual-net loop. -/
theorem routeNodeVnets_keeps_cap (vflags : VirtualNet → NetResultFlags) (m : Nat) :
    ∀ (lst : List VirtualNet) (s : NodeDispatchState),
      s.decomp_retries m = MAX_DECOMP_REROUTE →
      (routeNodeVnets vflags lst s).decomp_retries m = MAX_DECOMP_REROUTE := by
  intro lst
  induction lst with
  | nil => intro s h; exact h
  | cons v rest ih =>
    intro s h
    simp only [routeNodeVnets]
    apply ih
    split_ifs with h1 h2
    · show (fun m2 => if m2 = v.net_id then MAX_DECOMP_REROUTE else s.decomp_retries m2) m
        = MAX_DECOMP_REROUTE
      by_cases hm : m = v.net_id <;> simp [hm, h]
    · exact h
    · exact h

/-- A net with a failing, non-retryable direct routing result makes the
whole regular-net loop leave the node non-routable. -/
theorem routeNodeNets_sets_false (outcome : Nat → NetOutcome) :
    ∀ (lst : List Nat) (s : NodeDispatchState) (net : Nat) (rf : NetResultFlags),
      net ∈ lst → outcome net = NetOutcome.direct true rf →
      rf.success = false → rf.retry_with_full_bb = false →
      (routeNodeNets outcome lst s).is_routable = false := by
  intro lst
  induction lst with
  | nil => intro s net rf hmem; simp at hmem
  | cons n rest ih =>
    intro s net rf hmem ho hsucc hretry
    rcases List.mem_cons.mp hmem with rfl | hmem2
    · simp only [routeNodeNets, ho]
      apply routeNodeNets_keeps_false
      rw [directStep_is_routable]
      have hf : try_parallel_route_net true rf = { rf with was_rerouted := true } := rfl
      rw [hf]
      simp [hsucc, hretry]
    · simp only [routeNodeNets]
      rcases houter : outcome n with ⟨⟨l, r⟩⟩ | ⟨sr, rfn⟩
      · exact ih _ net rf hmem2 ho hsucc hretry
      · exact ih _ net rf hmem2 ho hsucc hretry

/-- A net whose direct routing was actually attempted
(`should_really_route_net` true) ends up in the node's `rerouted_nets`,
whatever its flags. -/
theorem routeNodeNets_rerouted_of_attempt (outcome : Nat → NetOutcome) :
    ∀ (lst : List Nat) (s : NodeDispatchState) (net : Nat) (rf : NetResultFlags),
      net ∈ lst → outcome net = NetOutcome.direct true rf →
      net ∈ (routeNodeNets outcome lst s).rerouted_nets := by
  intro lst
  induction lst with
  | nil => intro s net rf hmem; simp at hmem
  | cons n rest ih =>
    intro s net rf hmem ho
    rcases List.mem_cons.mp hmem with rfl | hmem2
    · simp only [routeNodeNets, ho]
      apply routeNodeNets_rerouted_mono
      apply directStep_rerouted_mem
      rfl
    · simp only [routeNodeNets]
      rcases houter : outcome n with ⟨⟨l, r⟩⟩ | ⟨sr, rfn⟩
      · exact ih _ net rf hmem2 ho
      · exact ih _ net rf hmem2 ho

/-- A failing, non-retryable virtual net drives its underlying net's
`decomp_retries` to the cap by the end of the virtual-net loop. -/
theorem routeNodeVnets_sets_cap (vflags : VirtualNet → NetResultFlags) :
    ∀ (lst : List VirtualNet) (s : NodeDispatchState) (v : VirtualNet),
      v ∈ lst → (vflags v).success = false → (vflags v).retry_with_full_bb = false →
      (routeNodeVnets vflags lst s).decomp_retries v.net_id = MAX_DECOMP_REROUTE := by
  intro lst
  induction lst with
  | nil => intro s v hmem; simp at hmem
  | cons w rest ih =>
    intro s v hmem hsucc hretry
    rcases List.mem_cons.mp hmem with rfl | hmem2
    · simp only [routeNodeVnets]
      rw [hsucc, hretry]
      apply routeNodeVnets_keeps_cap
      simp
    · simp only [routeNodeVnets]
      exact ih _ v hmem2 hsucc hretry

/-- The reduction ANDs `is_routable` over every node of the subtree. -/
theorem reduce_is_routable (n : ResultNode) :
    ∀ res : RouteIterResults,
      (reduce_partition_tree_helper n res).is_routable =
        (res.is_routable && allRoutable n) := by
  induction n with
  | leaf ir rr => intro res; rfl
  | branch ir rr l r ihl ihr =>
    intro res
    simp only [reduce_partition_tree_helper, allRoutable, ihr, ihl]
    simp [Bool.and_assoc]

/-- Nets not in the retry list keep their bbox and counter. -/
theorem applyRetry_preserve (grid_width grid_height : Nat) (n : Nat) :
    ∀ (lst : List Nat) (s : IterNetState), n ∉ lst →
      (applyRetryUpdates grid_width grid_height s lst).route_bb n = s.route_bb n ∧
      (applyRetryUpdates grid_width grid_height s lst).decomp_retries n
        = s.decomp_retries n := by
  intro lst
  induction lst with
  | nil => intro s _; exact ⟨rfl, rfl⟩
  | cons m rest ih =>
    intro s hn
    have hnm : n ≠ m := fun h => hn (by simp [h])
    have hrest : n ∉ rest := fun h => hn (by simp [h])
    obtain ⟨h1, h2⟩ := ih _ hrest
    refine ⟨?_, ?_⟩
    · rw [show applyRetryUpdates grid_width grid_height s (m :: rest)
          = applyRetryUpdates grid_width grid_height
            ⟨fun k => if k = m then fullDeviceBB grid_width grid_height else s.route_bb k,
             fun k => if k = m then MAX_DECOMP_REROUTE else s.decomp_retries k⟩ rest from rfl,
        h1]
      simp [hnm]
    · rw [show applyRetryUpdates grid_width grid_height s (m :: rest)
          = applyRetryUpdates grid_width grid_height
            ⟨fun k => if k = m then fullDeviceBB grid_width grid_height else s.route_bb k,
             fun k => if k = m then MAX_DECOMP_REROUTE else s.decomp_retries k⟩ rest from rfl,
        h2]
      simp [hnm]

/-- Nets in the retry list end with the full-device bbox and a capped
counter. -/
theorem applyRetry_sets (grid_width grid_height : Nat) (n : Nat) :
    ∀ (lst : List Nat) (s : IterNetState), n ∈ lst →
      (applyRetryUpdates grid_width grid_height s lst).route_bb n
        = fullDeviceBB grid_width grid_height ∧
      (applyRetryUpdates grid_width grid_height s lst).decomp_retries n
        = MAX_DECOMP_REROUTE := by
  intro lst
  induction lst with
  | nil => intro s h; simp at h
  | cons m rest ih =>
    intro s hmem
    by_cases hrest : n ∈ rest
    · exact ih _ hrest
    · have hnm : n = m := by
        rcases List.mem_cons.mp hmem with h | h
        · exact h
        · exact absurd h hrest
      subst hnm
      obtain ⟨h1, h2⟩ := applyRetry_preserve grid_width grid_height n rest
        ⟨fun k => if k = n then fullDeviceBB grid_width grid_height else s.route_bb k,
         fun k => if k = n then MAX_DECOMP_REROUTE else s.decomp_retries k⟩ hrest
      constructor
      · rw [show applyRetryUpdates grid_width grid_height s (n :: rest)
            = applyRetryUpdates grid_width grid_height
              ⟨fun k => if k = n then fullDeviceBB grid_width grid_height else s.route_bb k,
               fun k => if k = n then MAX_DECOMP_REROUTE else s.decomp_retries k⟩ rest from rfl,
          h1]
        simp
      · rw [show applyRetryUpdates grid_width grid_height s (n :: rest)
            = applyRetryUpdates grid_width grid_height
              ⟨fun k => if k = n then fullDeviceBB grid_width grid_height else s.route_bb k,
               fun k => if k = n then MAX_DECOMP_REROUTE else s.decomp_retries k⟩ rest from rfl,
          h2]
        simp

/-- When a cutline was chosen, it is one of the scanned candidates. -/
theorem chooseCutline_surviving (nets : List PNet) (x1 y1 x2 y2 : Int)
    (h : (chooseCutline nets x1 y1 x2 y2).pos ≠ -1) :
    ∃ c ∈ cutCands nets x1 y1 x2 y2,
      chooseCutline nets x1 y1 x2 y2 = ⟨c.score, c.pos, c.axis⟩ := by
  obtain ⟨_, hP2⟩ := foldBest_spec (cutCands nets x1 y1 x2 y2) initBest
  rcases hP2 with ⟨heq, _⟩ | ⟨k, hk, _, hkeq, _, _⟩
  · exact absurd (by rw [chooseCutline, heq]; rfl) h
  · exact ⟨_, List.get_mem _ _ hk, hkeq⟩

/-- Every scanned candidate's position lies inside the region on its axis. -/
theorem cand_shape (nets : List PNet) (x1 y1 x2 y2 : Int) (c : Cand)
    (hc : c ∈ cutCands nets x1 y1 x2 y2) :
    (c.axis = Axis.X ∧ x1 ≤ c.pos ∧ c.pos < x2) ∨
    (c.axis = Axis.Y ∧ y1 ≤ c.pos ∧ c.pos < y2) := by
  rcases List.mem_append.mp hc with hx | hy
  · simp only [xCands, List.mem_map, List.mem_range] at hx
    obtain ⟨x, hxr, rfl⟩ := hx
    simp at hxr
    obtain ⟨a, ha, rfl⟩ := hxr
    refine Or.inl ⟨rfl, ?_, ?_⟩
    · show x1 ≤ x1 + (a : Int)
      omega
    · show x1 + (a : Int) < x2
      omega
  · simp only [yCands, List.mem_map, List.mem_range] at hy
    obtain ⟨y, hyr, rfl⟩ := hy
    simp at hyr
    obtain ⟨a, ha, rfl⟩ := hyr
    refine Or.inr ⟨rfl, ?_, ?_⟩
    · show y1 ≤ y1 + (a : Int)
      omega
    · show y1 + (a : Int) < y2
      omega

/-- A net whose bbox is the full device always lands in the `nets` list of
the root node of a successful build. -/
theorem full_bb_net_in_root_nets (fuel : Nat) (nets : List PNet) (gw gh : Nat)
    (hgw : 1 ≤ gw) (hgh : 1 ≤ gh) (t : PTree) (net : PNet)
    (hb : build_helper fuel nets 0 0 (gw : Int) (gh : Int) = Except.ok (some t))
    (hmem : net ∈ nets) (hbb : net.bb = fullDeviceBB gw gh) :
    net ∈ t.nets := by
  cases fuel with
  | zero => exact absurd hb (by simp [build_helper])
  | succ fuel =>
    rw [build_helper] at hb
    rw [if_neg (by simp only [List.isEmpty_eq_true]; rintro rfl; simp at hmem)] at hb
    rw [if_neg (by push_neg; omega)] at hb
    simp only [] at hb
    by_cases hleaf : (chooseCutline nets 0 0 (gw : Int) (gh : Int)).pos = -1
    · rw [if_pos hleaf] at hb
      have hteq : PTree.mk nets none none Axis.X (-1) = t := by simpa using hb
      subst hteq
      exact hmem
    · rw [if_neg hleaf] at hb
      obtain ⟨c, hcmem, hceq⟩ := chooseCutline_surviving nets 0 0 (gw : Int) (gh : Int) hleaf
      have haxeq : (chooseCutline nets 0 0 (gw : Int) (gh : Int)).axis = c.axis := by
        rw [hceq]
      have hposeq : (chooseCutline nets 0 0 (gw : Int) (gh : Int)).pos = c.pos := by
        rw [hceq]
      have hshape := cand_shape nets 0 0 (gw : Int) (gh : Int) c hcmem
      have hcl : classify c.axis c.pos net.bb = some NetClass.toMine := by
        rcases hshape with ⟨hax, hlo, hhi⟩ | ⟨hax, hlo, hhi⟩ <;> rw [hax] <;>
          simp only [classify, hbb, fullDeviceBB] <;>
          rw [if_neg (by rintro ⟨hc1, hc2⟩; omega),
              if_neg (by rintro ⟨hc1, hc2⟩; omega),
              if_pos ⟨by omega, by omega⟩]
      rw [haxeq, hposeq] at hb
      rcases hpart : partition3 c.axis c.pos nets with _ | ⟨lns, rns, mns⟩ <;>
        rw [hpart] at hb <;> (try dsimp only [] at hb)
      · exact absurd hb (by simp)
      have hmine := partition3_mem_mine c.axis c.pos net nets lns rns mns hpart hmem hcl
      rcases hax2 : c.axis with _ | _ <;> rw [hax2] at hb <;> (try dsimp only [] at hb)
      · rcases hl : build_helper fuel lns 0 0 c.pos (gh : Int) with el | rl <;>
          rw [hl] at hb <;> (try dsimp only [] at hb)
        · exact absurd hb (by simp)
        rcases hr : build_helper fuel rns c.pos (gh : Int) (gw : Int) (gh : Int) with er | rr <;>
          rw [hr] at hb <;> (try dsimp only [] at hb)
        · exact absurd hb (by simp)
        have hteq : PTree.mk mns rl rr Axis.X c.pos = t := by simpa using hb
        subst hteq
        exact hmine
      · rcases hl : build_helper fuel lns 0 c.pos (gw : Int) (gh : Int) with el | rl <;>
          rw [hl] at hb <;> (try dsimp only [] at hb)
        · exact absurd hb (by simp)
        rcases hr : build_helper fuel rns 0 0 (gw : Int) c.pos with er | rr <;>
          rw [hr] at hb <;> (try dsimp only [] at hb)
        · exact absurd hb (by simp)
        have hteq : PTree.mk mns rl rr Axis.Y c.pos = t := by simpa using hb
        subst hteq
        exact hmine

/-- Claim C4: after `decompose_route_partition_tree` runs the retry loop,
every net in the iteration's `nets_to_retry` has its routing bbox set to
the full device `{0, grid_width − 1, 0, grid_height − 1}` and its
`decomp_retries` set to `MAX_DECOMP_REROUTE = 5`; a net with a capped
counter is never decomposed again (`should_decompose_net` is false whatever
the other arguments), and a net with the full-device bbox sits in the root
node's own `nets` list of the next iteration's partition tree. -/
theorem claim4_retry_full_bb (grid_width grid_height : Nat) (s : IterNetState)
    (nets_to_retry : List Nat) :
    (∀ n ∈ nets_to_retry,
      (applyRetryUpdates grid_width grid_height s nets_to_retry).route_bb n
        = fullDeviceBB grid_width grid_height ∧
      (applyRetryUpdates grid_width grid_height s nets_to_retry).decomp_retries n
        = MAX_DECOMP_REROUTE) ∧
    (∀ (level num_workers : Nat) (g two : Bool) (retries : Nat) (bb : TBB)
      (num_terminals : Nat) (pos : Int) (axis : Axis),
      retries ≥ MAX_DECOMP_REROUTE →
      should_decompose_net level num_workers g two retries bb num_terminals pos axis
        = some false) ∧
    (∀ (fuel : Nat) (nets : List PNet) (t : PTree) (net : PNet),
      1 ≤ grid_width → 1 ≤ grid_height →
      build_helper fuel nets 0 0 (grid_width : Int) (grid_height : Int)
        = Except.ok (some t) →
      net ∈ nets → net.bb = fullDeviceBB grid_width grid_height →
      net ∈ t.nets) := by
  refine ⟨?_, ?_, ?_⟩
  · intro n hn
    exact applyRetry_sets grid_width grid_height n nets_to_retry s hn
  · intro level num_workers g two retries bb num_terminals pos axis hcap
    simp only [should_decompose_net]
    split_ifs <;> rfl
  · intro fuel nets t net hgw hgh hb hmem hbb
    exact full_bb_net_in_root_nets fuel nets grid_width grid_height hgw hgh t net hb hmem hbb

/-- Base state for concrete retry-loop instantiations. -/
def retryS0 : IterNetState := ⟨fun _ => ⟨0, 0, 0, 0⟩, fun _ => 0⟩

/-- Concrete instantiation of claim C4 on a `5 × 5` grid: net 4 is in the
retry list, gets the full-device bbox and the capped counter; a capped
counter blocks decomposition; and a full-device-bbox net sits in the root
leaf. -/
theorem claim4_witness :
    ((applyRetryUpdates 5 5 retryS0 [4]).route_bb 4 = fullDeviceBB 5 5 ∧
      (applyRetryUpdates 5 5 retryS0 [4]).decomp_retries 4 = MAX_DECOMP_REROUTE) ∧
    should_decompose_net 0 4 false false 5 bb3 11 7 Axis.X = some false ∧
    netFull ∈ (PTree.mk [netFull] none none Axis.X (-1)).nets := by
  obtain ⟨h1, h2, h3⟩ := claim4_retry_full_bb 5 5 retryS0 [4]
  refine ⟨h1 4 (by simp), h2 0 4 false false 5 bb3 11 7 Axis.X (by decide), ?_⟩
  exact h3 1 [netFull] (PTree.mk [netFull] none none Axis.X (-1)) netFull
    (by decide) (by decide) (by rfl) (by simp) (by decide)

/-- Initial node-dispatch state: `is_routable = true`, everything empty,
all retry counters zero. -/
def nodeS0 : NodeDispatchState := ⟨true, [], [], [], [], fun _ => 0⟩

/-- Claim C9 (counterexample to the virtual-net conjunct): a virtual net
whose routing returns `success = false, retry_with_full_bb = false` does
NOT mark the node non-routable — the node flag stays true; the loop instead
caps the underlying net's `decomp_retries`. -/
theorem claim9_counterexample :
    (routeNodeVnets (fun _ => ⟨false, false, false⟩) [⟨3, bb3⟩] nodeS0).is_routable
      = true ∧
    (routeNodeVnets (fun _ => ⟨false, false, false⟩) [⟨3, bb3⟩] nodeS0).decomp_retries 3
      = MAX_DECOMP_REROUTE :=
  ⟨rfl, rfl⟩

/-- Claim C9 (amended): for every regular net processed at a node, a result
of `success = false` with `retry_with_full_bb = false` marks the node
non-routable; for a virtual net the same result leaves the node flag
untouched and instead sets the underlying net's `decomp_retries` to the
cap; and the reduction makes the iteration's `is_routable` the conjunction
of the initial flag with all node flags. -/
theorem claim9_result_flags :
    (∀ (outcome : Nat → NetOutcome) (lst : List Nat) (s : NodeDispatchState)
      (net : Nat) (rf : NetResultFlags),
      net ∈ lst → outcome net = NetOutcome.direct true rf →
      rf.success = false → rf.retry_with_full_bb = false →
      (routeNodeNets outcome lst s).is_routable = false) ∧
    (∀ (vflags : VirtualNet → NetResultFlags) (lst : List VirtualNet)
      (s : NodeDispatchState),
      (routeNodeVnets vflags lst s).is_routable = s.is_routable) ∧
    (∀ (vflags : VirtualNet → NetResultFlags) (lst : List VirtualNet)
      (s : NodeDispatchState) (v : VirtualNet),
      v ∈ lst → (vflags v).success = false → (vflags v).retry_with_full_bb = false →
      (routeNodeVnets vflags lst s).decomp_retries v.net_id = MAX_DECOMP_REROUTE) ∧
    (∀ (n : ResultNode) (res : RouteIterResults),
      (reduce_partition_tree_helper n res).is_routable
        = (res.is_routable && allRoutable n)) :=
  ⟨fun o lst s net rf h1 h2 h3 h4 => routeNodeNets_sets_false o lst s net rf h1 h2 h3 h4,
   fun vf lst s => routeNodeVnets_is_routable vf lst s,
   fun vf lst s v h1 h2 h3 => routeNodeVnets_sets_cap vf lst s v h1 h2 h3,
   fun n res => reduce_is_routable n res⟩

/-- Concrete instantiation of the amended claim C9: a regular net failing
without retry makes the node non-routable, and the reduction ANDs the node
flags. -/
theorem claim9_witness :
    (routeNodeNets (fun _ => NetOutcome.direct true ⟨false, false, false⟩) [11]
      nodeS0).is_routable = false ∧
    (reduce_partition_tree_helper (ResultNode.branch true []
      (ResultNode.leaf false []) (ResultNode.leaf true [])) ⟨true, []⟩).is_routable
      = (true && allRoutable (ResultNode.branch true []
          (ResultNode.leaf false []) (ResultNode.leaf true []))) := by
  obtain ⟨h1, _, _, h4⟩ := claim9_result_flags
  exact ⟨h1 (fun _ => NetOutcome.direct true ⟨false, false, false⟩) [11] nodeS0 11
    ⟨false, false, false⟩ (by simp) rfl rfl rfl,
    h4 (ResultNode.branch true [] (ResultNode.leaf false []) (ResultNode.leaf true []))
      ⟨true, []⟩⟩

/-- Claim C10: `try_parallel_route_net` returns `success = true` with
`was_rerouted = false` (and no retry) for every net that is fixed, ignored,
or needs no rerouting (`should_really_route_net` false, leaving the route
tree untouched since the router is never invoked); whenever the router is
invoked it sets `was_rerouted = true` unconditionally; and therefore a
node's `rerouted_nets` also contains nets whose routing attempt failed. -/
theorem claim10_try_parallel_route_net :
    (∀ budget_if_set get_should_reroute wns_nonzero is_fixed is_ignored
        should_route_verdict : Bool,
      (is_fixed = true ∨ is_ignored = true ∨
        (((budget_if_set && get_should_reroute) && wns_nonzero) = false ∧
          should_route_verdict = false)) →
      should_really_route_net budget_if_set get_should_reroute wns_nonzero
        is_fixed is_ignored should_route_verdict = false) ∧
    (∀ rf : NetResultFlags, try_parallel_route_net false rf
      = ⟨true, false, false⟩) ∧
    (∀ rf : NetResultFlags, (try_parallel_route_net true rf).was_rerouted = true) ∧
    (∀ (outcome : Nat → NetOutcome) (lst : List Nat) (s : NodeDispatchState)
      (net : Nat) (rf : NetResultFlags),
      net ∈ lst → outcome net = NetOutcome.direct true rf →
      net ∈ (routeNodeNets outcome lst s).rerouted_nets) :=
  ⟨by decide, fun rf => rfl, fun rf => rfl,
   fun o lst s net rf h1 h2 => routeNodeNets_rerouted_of_attempt o lst s net rf h1 h2⟩

/-- Concrete instantiation of claim C10: net 13's routing attempt failed
(`success = false`) yet it is in `rerouted_nets`; a fixed net is skipped
with a clean success. -/
theorem claim10_witness :
    (13 ∈ (routeNodeNets (fun _ => NetOutcome.direct true ⟨false, false, false⟩) [13]
      nodeS0).rerouted_nets) ∧
    should_really_route_net true true true true false true = false := by
  obtain ⟨h1, _, _, h4⟩ := claim10_try_parallel_route_net
  exact ⟨h4 (fun _ => NetOutcome.direct true ⟨false, false, false⟩) [13] nodeS0 13
      ⟨false, false, false⟩ (by simp) rfl,
    h1 true true true true false true (Or.inl rfl)⟩

/-! ## Claim C5: spatial binning in `get_decomposition_isinks` -/

/-- `bins_x = width / MIN_DECOMP_BIN_WIDTH` of `get_decomposition_isinks`. -/
def binsX (bb : TBB) : Nat := (bb.xmax - bb.xmin + 1).toNat / MIN_DECOMP_BIN_WIDTH

/-- `bins_y = height / MIN_DECOMP_BIN_WIDTH`. -/
def binsY (bb : TBB) : Nat := (bb.ymax - bb.ymin + 1).toNat / MIN_DECOMP_BIN_WIDTH

/-- `bin_width_x = width / bins_x + 1`. -/
def binWX (bb : TBB) : Nat := (bb.xmax - bb.xmin + 1).toNat / binsX bb + 1

/-- `bin_width_y = height / bins_y + 1`. -/
def binWY (bb : TBB) : Nat := (bb.ymax - bb.ymin + 1).toNat / binsY bb + 1

/-- The bin of terminal `s`. -/
def binSink (bb : TBB) (term : Nat → Int × Int) (s : Nat) : Nat × Nat :=
  binOf bb (binWX bb) (binWY bb) (term s)

/-- A coordinate lies inside an inclusive bbox (`inside_bb` in VPR). -/
def inBB (c : Int × Int) (bb : TBB) : Prop :=
  bb.xmin ≤ c.1 ∧ c.1 ≤ bb.xmax ∧ bb.ymin ≤ c.2 ∧ c.2 ≤ bb.ymax

instance (c : Int × Int) (bb : TBB) : Decidable (inBB c bb) := by
  unfold inBB; infer_instance

/-- `get_decomposition_isinks` in terms of the named bin quantities. -/
theorem gdi_eq (bb : TBB) (term : Nat → Int × Int) (reached remaining : List Nat) :
    get_decomposition_isinks bb term reached remaining =
      match markReached term bb (binWX bb) (binWY bb) reached (fun _ => 0)
          (binsX bb * binsY bb) with
      | none => []
      | some (samples, stf) =>
        sampleTargets term bb (binWX bb) (binWY bb) remaining samples stf [] := rfl

/-- Core division bound: an offset within a width-`W` strip falls into one
of the `W / 5` bins of width `W / (W / 5) + 1`. -/
theorem offset_div_lt (W : Nat) (h5 : 5 ≤ W) (a : Nat) (ha : a + 1 ≤ W) :
    a / (W / (W / 5) + 1) < W / 5 := by
  have hb1 : 1 ≤ W / 5 := by omega
  rw [Nat.div_lt_iff_lt_mul (Nat.succ_pos _)]
  have h1 := Nat.div_add_mod W (W / 5)
  have h2 : W % (W / 5) < W / 5 := Nat.mod_lt _ (by omega)
  have hmul : (W / 5) * (W / (W / 5) + 1) = (W / 5) * (W / (W / 5)) + W / 5 :=
    Nat.mul_succ _ _
  have hgoal : a < (W / 5) * (W / (W / 5)) + W / 5 := by linarith
  linarith [hmul, hgoal]

/-- The bin of an in-bbox coordinate is in range. -/
theorem binOf_lt (bb : TBB) (hW : 5 ≤ bb.xmax - bb.xmin + 1)
    (hH : 5 ≤ bb.ymax - bb.ymin + 1) (c : Int × Int) (hc : inBB c bb) :
    (binOf bb (binWX bb) (binWY bb) c).1 < binsX bb ∧
    (binOf bb (binWX bb) (binWY bb) c).2 < binsY bb := by
  obtain ⟨h1, h2, h3, h4⟩ := hc
  constructor
  · show (c.1 - bb.xmin).toNat / binWX bb < binsX bb
    simp only [binWX, binsX, MIN_DECOMP_BIN_WIDTH]
    exact offset_div_lt (bb.xmax - bb.xmin + 1).toNat (by omega) (c.1 - bb.xmin).toNat
      (by omega)
  · show (c.2 - bb.ymin).toNat / binWY bb < binsY bb
    simp only [binWY, binsY, MIN_DECOMP_BIN_WIDTH]
    exact offset_div_lt (bb.ymax - bb.ymin + 1).toNat (by omega) (c.2 - bb.ymin).toNat
      (by omega)

/-- Number of still-empty (`NONE = 0`) in-range bins. -/
def noneCard (bb : TBB) (samples : Nat × Nat → Int) : Nat :=
  (((Finset.range (binsX bb)) ×ˢ (Finset.range (binsY bb))).filter
    (fun b => samples b = 0)).card

/-- All-zero samples have exactly `bins_x * bins_y` empty bins. -/
theorem noneCard_zero_fun (bb : TBB) : noneCard bb (fun _ => 0) = binsX bb * binsY bb := by
  simp [noneCard]

/-- Writing a nonzero value into an in-range empty bin decreases the empty
count by exactly one. -/
theorem noneCard_update (bb : TBB) (samples : Nat × Nat → Int) (β : Nat × Nat)
    (v : Int) (hβ1 : β.1 < binsX bb) (hβ2 : β.2 < binsY bb)
    (h0 : samples β = 0) (hv : v ≠ 0) :
    noneCard bb (updSamples samples β v) + 1 = noneCard bb samples := by
  have hfe : ((Finset.range (binsX bb)) ×ˢ (Finset.range (binsY bb))).filter
      (fun b => updSamples samples β v b = 0)
      = (((Finset.range (binsX bb)) ×ˢ (Finset.range (binsY bb))).filter
        (fun b => samples b = 0)).erase β := by
    ext b
    simp only [Finset.mem_filter, Finset.mem_erase, updSamples]
    constructor
    · rintro ⟨hbmem, hbv⟩
      by_cases hbβ : b = β
      · rw [if_pos hbβ] at hbv; exact absurd hbv hv
      · rw [if_neg hbβ] at hbv; exact ⟨hbβ, hbmem, hbv⟩
    · rintro ⟨hbβ, hbmem, hbv⟩
      refine ⟨hbmem, ?_⟩
      rw [if_neg hbβ]; exact hbv
  have hβmem : β ∈ (((Finset.range (binsX bb)) ×ˢ (Finset.range (binsY bb))).filter
      (fun b => samples b = 0)) := by
    simp [Finset.mem_filter, Finset.mem_product, Finset.mem_range, hβ1, hβ2, h0]
  unfold noneCard
  rw [hfe, Finset.card_erase_of_mem hβmem]
  have : 1 ≤ (((Finset.range (binsX bb)) ×ˢ (Finset.range (binsY bb))).filter
      (fun b => samples b = 0)).card := Finset.card_pos.mpr ⟨β, hβmem⟩
  omega

/-- An exhausted empty count means every in-range bin is non-empty. -/
theorem noneCard_eq_zero (bb : TBB) (samples : Nat × Nat → Int)
    (h : noneCard bb samples = 0) (β : Nat × Nat)
    (hβ1 : β.1 < binsX bb) (hβ2 : β.2 < binsY bb) : samples β ≠ 0 := by
  intro h0
  unfold noneCard at h
  have hβmem : β ∈ (((Finset.range (binsX bb)) ×ˢ (Finset.range (binsY bb))).filter
      (fun b => samples b = 0)) := by
    simp [Finset.mem_filter, Finset.mem_product, Finset.mem_range, hβ1, hβ2, h0]
  have := Finset.card_pos.mpr ⟨β, hβmem⟩
  omega

/-- Bound on a duplicate-free list of in-range bins. -/
theorem nodup_bins_length (l : List (Nat × Nat)) (hl : l.Nodup) (bx bby : Nat)
    (hb : ∀ b ∈ l, b.1 < bx ∧ b.2 < bby) : l.length ≤ bx * bby := by
  classical
  have h1 : l.toFinset.card = l.length := List.toFinset_card_of_nodup hl
  have h2 : l.toFinset ⊆ (Finset.range bx) ×ˢ (Finset.range bby) := by
    intro b hbmem
    rw [List.mem_toFinset] at hbmem
    obtain ⟨hb1, hb2⟩ := hb b hbmem
    simp [Finset.mem_product, Finset.mem_range, hb1, hb2]
  have h3 := Finset.card_le_card h2
  rw [h1] at h3
  simpa using h3

/-- Invariant-carrying specification of the reached-marking loop of
`get_decomposition_isinks`.  `P` abstracts "some already-reached sink falls
into this bin".  On early return (`none`) every in-range bin satisfies `P`;
on normal exit the sample table is two-valued, `REACHED` bins satisfy `P`,
every processed sink's bin is marked, and marks persist. -/
theorem markReached_spec (term : Nat → Int × Int) (bb : TBB)
    (hW : 5 ≤ bb.xmax - bb.xmin + 1) (hH : 5 ≤ bb.ymax - bb.ymin + 1)
    (P : Nat × Nat → Prop) :
    ∀ (rs : List Nat) (samples : Nat × Nat → Int) (stf : Nat),
      (∀ r ∈ rs, inBB (term r) bb) →
      (∀ r ∈ rs, P (binSink bb term r)) →
      noneCard bb samples ≤ stf →
      (∀ β, samples β = 0 ∨ samples β = REACHED) →
      (∀ β, samples β = REACHED → P β) →
      (match markReached term bb (binWX bb) (binWY bb) rs samples stf with
       | none => ∀ β : Nat × Nat, β.1 < binsX bb → β.2 < binsY bb → P β
       | some (samples2, stf2) =>
         noneCard bb samples2 ≤ stf2 ∧
         (∀ β, samples2 β = 0 ∨ samples2 β = REACHED) ∧
         (∀ β, samples2 β = REACHED → P β) ∧
         (∀ r ∈ rs, samples2 (binSink bb term r) = REACHED) ∧
         (∀ β, samples β = REACHED → samples2 β = REACHED)) := by
  intro rs
  induction rs with
  | nil =>
    intro samples stf _ _ h1 h2 h3
    simp only [markReached]
    exact ⟨h1, h2, h3, by simp, fun β h => h⟩
  | cons r rest ih =>
    intro samples stf hin hp h1 h2 h3
    simp only [markReached]
    by_cases hstf : stf = 0
    · rw [if_pos hstf]
      intro β hβ1 hβ2
      have hnc : noneCard bb samples = 0 := by omega
      have hne := noneCard_eq_zero bb samples hnc β hβ1 hβ2
      rcases h2 β with h | h
      · exact absurd h hne
      · exact h3 β h
    · rw [if_neg hstf]
      by_cases hmark : samples (binOf bb (binWX bb) (binWY bb) (term r)) ≠ REACHED
      · rw [if_pos hmark]
        have hz : samples (binOf bb (binWX bb) (binWY bb) (term r)) = 0 := by
          rcases h2 (binOf bb (binWX bb) (binWY bb) (term r)) with h | h
          · exact h
          · exact absurd h hmark
        have hrange := binOf_lt bb hW hH (term r) (hin r (by simp))
        have hcard := noneCard_update bb samples
          (binOf bb (binWX bb) (binWY bb) (term r)) REACHED hrange.1 hrange.2 hz
          (by norm_num [REACHED])
        have hres := ih
          (updSamples samples (binOf bb (binWX bb) (binWY bb) (term r)) REACHED)
          (stf - 1)
          (fun r2 hr2 => hin r2 (by simp [hr2]))
          (fun r2 hr2 => hp r2 (by simp [hr2]))
          (by omega)
          (fun β => by
            simp only [updSamples]
            split_ifs with hb
            · exact Or.inr rfl
            · exact h2 β)
          (fun β hβ => by
            simp only [updSamples] at hβ
            split_ifs at hβ with hb
            · subst hb; exact hp r (by simp)
            · exact h3 β hβ)
        rcases hrec : markReached term bb (binWX bb) (binWY bb) rest
            (updSamples samples (binOf bb (binWX bb) (binWY bb) (term r)) REACHED)
            (stf - 1) with _ | ⟨samples2, stf2⟩ <;> rw [hrec] at hres
        · exact hres
        · obtain ⟨k1, k2, k3, k4, k5⟩ := hres
          refine ⟨k1, k2, k3, ?_, ?_⟩
          · intro r2 hr2
            rcases List.mem_cons.mp hr2 with rfl | hr2
            · exact k5 _ (by simp [updSamples, binSink])
            · exact k4 r2 hr2
          · intro β hβ
            apply k5
            simp only [updSamples]
            split_ifs with hb
            · rfl
            · exact hβ
      · rw [if_neg hmark]
        push_neg at hmark
        have hres := ih samples stf
          (fun r2 hr2 => hin r2 (by simp [hr2]))
          (fun r2 hr2 => hp r2 (by simp [hr2]))
          h1 h2 h3
        rcases hrec : markReached term bb (binWX bb) (binWY bb) rest samples stf
          with _ | ⟨samples2, stf2⟩ <;> rw [hrec] at hres
        · exact hres
        · obtain ⟨k1, k2, k3, k4, k5⟩ := hres
          refine ⟨k1, k2, k3, ?_, k5⟩
          intro r2 hr2
          rcases List.mem_cons.mp hr2 with rfl | hr2
          · exact k5 _ hmark
          · exact k4 r2 hr2

/-- Invariant-carrying specification of the target-sampling loop of
`get_decomposition_isinks`.  `R` abstracts "this bin was marked by the
reached pass"; `done` is the already-scanned prefix of the criticality-
sorted target list.  The result has pairwise-distinct bins, consists of
scanned targets, avoids `R` bins, and covers every non-`R` bin that holds a
target with that bin's most critical target. -/
theorem sampleTargets_spec (term : Nat → Int × Int) (bb : TBB) (crit : Nat → Int)
    (hW : 5 ≤ bb.xmax - bb.xmin + 1) (hH : 5 ≤ bb.ymax - bb.ymin + 1)
    (R : Nat × Nat → Prop) :
    ∀ (todo : List Nat) (samples : Nat × Nat → Int) (stf : Nat) (out done : List Nat),
      (∀ s ∈ todo, inBB (term s) bb) →
      (∀ s ∈ todo, 1 ≤ s) →
      ((done ++ todo).Pairwise (fun a b => crit b ≤ crit a)) →
      noneCard bb samples ≤ stf →
      (∀ β, samples β = REACHED ↔ R β) →
      (∀ β, samples β = 0 ∨ samples β = REACHED ∨
        ∃ s ∈ out, (s : Int) = samples β ∧ binSink bb term s = β) →
      (∀ s ∈ out, samples (binSink bb term s) = (s : Int) ∧ 1 ≤ s) →
      (∀ u ∈ done, samples (binSink bb term u) ≠ 0) →
      (∀ s ∈ out, s ∈ done) →
      (∀ s ∈ out, ∀ u ∈ done ++ todo,
        binSink bb term u = binSink bb term s → crit u ≤ crit s) →
      ((out.map (binSink bb term)).Nodup) →
      ((sampleTargets term bb (binWX bb) (binWY bb) todo samples stf out).map
          (binSink bb term)).Nodup ∧
      (∀ s ∈ sampleTargets term bb (binWX bb) (binWY bb) todo samples stf out,
        s ∈ done ++ todo) ∧
      (∀ s ∈ sampleTargets term bb (binWX bb) (binWY bb) todo samples stf out,
        ¬ R (binSink bb term s)) ∧
      (∀ u ∈ done ++ todo, inBB (term u) bb → ¬ R (binSink bb term u) →
        ∃ s ∈ sampleTargets term bb (binWX bb) (binWY bb) todo samples stf out,
          binSink bb term s = binSink bb term u ∧ crit u ≤ crit s) := by
  intro todo
  induction todo with
  | nil =>
    intro samples stf out done hin hpos hsorted hI1 hIR hIv hIo hIdone hIoutmem hIcrit hIbins
    simp only [sampleTargets]
    refine ⟨hIbins, fun s hs => by simpa using hIoutmem s hs, ?_, ?_⟩
    · intro s hs hR
      obtain ⟨ho1, ho2⟩ := hIo s hs
      have : samples (binSink bb term s) = REACHED := (hIR _).mpr hR
      rw [ho1] at this
      simp only [REACHED] at this
      omega
    · intro u hu _ hR
      have hu2 : u ∈ done := by simpa using hu
      have hnz := hIdone u hu2
      rcases hIv (binSink bb term u) with h | h | ⟨s, hs, hse, hsb⟩
      · exact absurd h hnz
      · exact absurd ((hIR _).mp h) hR
      · exact ⟨s, hs, hsb, hIcrit s hs u (by simpa using hu2) hsb.symm⟩
  | cons t0 rest ih =>
    intro samples stf out done hin hpos hsorted hI1 hIR hIv hIo hIdone hIoutmem hIcrit hIbins
    have hint0 : inBB (term t0) bb := hin t0 (by simp)
    have hpost0 : 1 ≤ t0 := hpos t0 (by simp)
    have hl : (done ++ [t0]) ++ rest = done ++ t0 :: rest := by simp
    simp only [sampleTargets]
    by_cases hstf : stf = 0
    · rw [if_pos hstf]
      refine ⟨hIbins, fun s hs => by simp [hIoutmem s hs], ?_, ?_⟩
      · intro s hs hR
        obtain ⟨ho1, ho2⟩ := hIo s hs
        have : samples (binSink bb term s) = REACHED := (hIR _).mpr hR
        rw [ho1] at this
        simp only [REACHED] at this
        omega
      · intro u hu huin hR
        have hnz : samples (binSink bb term u) ≠ 0 := by
          have hnc : noneCard bb samples = 0 := by omega
          have hrange := binOf_lt bb hW hH (term u) huin
          exact noneCard_eq_zero bb samples hnc (binSink bb term u) hrange.1 hrange.2
        rcases hIv (binSink bb term u) with h | h | ⟨s, hs, hse, hsb⟩
        · exact absurd h hnz
        · exact absurd ((hIR _).mp h) hR
        · exact ⟨s, hs, hsb, hIcrit s hs u hu hsb.symm⟩
    · rw [if_neg hstf]
      by_cases hsel : samples (binOf bb (binWX bb) (binWY bb) (term t0)) = 0
      · rw [if_pos hsel]
        have hz : samples (binSink bb term t0) = 0 := hsel
        have hrange := binOf_lt bb hW hH (term t0) hint0
        have hne0 : ((t0 : Int)) ≠ 0 := by omega
        have hcard := noneCard_update bb samples (binSink bb term t0) (t0 : Int)
          hrange.1 hrange.2 hz hne0
        have hsortmid := (List.pairwise_append.mp hsorted).2.1
        have hcritrest := (List.pairwise_cons.mp hsortmid).1
        have hres := ih
          (updSamples samples (binSink bb term t0) (t0 : Int)) (stf - 1)
          (out ++ [t0]) (done ++ [t0])
          (fun s hs => hin s (by simp [hs]))
          (fun s hs => hpos s (by simp [hs]))
          (by rw [hl]; exact hsorted)
          (by omega)
          (fun β => by
            simp only [updSamples]
            split_ifs with hb
            · subst hb
              constructor
              · intro h; simp only [REACHED] at h; omega
              · intro hR
                have := (hIR _).mpr hR
                rw [hz] at this
                simp [REACHED] at this
            · exact hIR β)
          (fun β => by
            simp only [updSamples]
            split_ifs with hb
            · exact Or.inr (Or.inr ⟨t0, by simp, rfl, hb.symm⟩)
            · rcases hIv β with h | h | ⟨s, hs, hse, hsb⟩
              · exact Or.inl h
              · exact Or.inr (Or.inl h)
              · exact Or.inr (Or.inr ⟨s, by simp [hs], hse, hsb⟩))
          (fun s hs => by
            rcases List.mem_append.mp hs with hs2 | hs2
            · obtain ⟨ho1, ho2⟩ := hIo s hs2
              have hdiff : binSink bb term s ≠ binSink bb term t0 := by
                intro heq
                rw [heq, hz] at ho1
                omega
              constructor
              · simp only [updSamples]
                rw [if_neg hdiff]
                exact ho1
              · exact ho2
            · have : s = t0 := by simpa using hs2
              subst this
              exact ⟨by simp [updSamples], hpost0⟩)
          (fun u hu => by
            rcases List.mem_append.mp hu with hu2 | hu2
            · simp only [updSamples]
              split_ifs with hb
              · omega
              · exact hIdone u hu2
            · have : u = t0 := by simpa using hu2
              subst this
              simp only [updSamples, if_pos]
              omega)
          (fun s hs => by
            rcases List.mem_append.mp hs with hs2 | hs2
            · simp [hIoutmem s hs2]
            · have hst : s = t0 := by simpa using hs2
              subst hst
              simp)
          (fun s hs u hu heq => by
            rw [hl] at hu
            rcases List.mem_append.mp hs with hs2 | hs2
            · exact hIcrit s hs2 u hu heq
            · have hst : s = t0 := by simpa using hs2
              subst hst
              rcases List.mem_append.mp hu with hu2 | hu2
              · exact absurd (heq ▸ hIdone u hu2) (by simp [hz])
              · rcases List.mem_cons.mp hu2 with rfl | hu3
                · exact le_refl _
                · exact hcritrest u hu3)
          (by
            rw [List.map_append]
            simp only [List.map_cons, List.map_nil]
            rw [List.nodup_append]
            refine ⟨hIbins, by simp, ?_⟩
            intro β hβ1 hβ2
            simp only [List.mem_singleton] at hβ2
            obtain ⟨s, hs, hsb⟩ := List.mem_map.mp hβ1
            obtain ⟨ho1, _⟩ := hIo s hs
            rw [hβ2] at hsb
            rw [hsb, hz] at ho1
            omega)
        obtain ⟨k1, k2, k3, k4⟩ := hres
        refine ⟨k1, ?_, k3, ?_⟩
        · intro s hs
          have := k2 s hs
          rw [hl] at this
          exact this
        · intro u hu huin hR
          apply k4 u _ huin hR
          rw [hl]
          exact hu
      · rw [if_neg hsel]
        have hsortmid := (List.pairwise_append.mp hsorted).2.1
        have hres := ih samples stf out (done ++ [t0])
          (fun s hs => hin s (by simp [hs]))
          (fun s hs => hpos s (by simp [hs]))
          (by rw [hl]; exact hsorted)
          hI1 hIR hIv hIo
          (fun u hu => by
            rcases List.mem_append.mp hu with hu2 | hu2
            · exact hIdone u hu2
            · have : u = t0 := by simpa using hu2
              subst this
              exact hsel)
          (fun s hs => by simp [hIoutmem s hs])
          (fun s hs u hu heq => by
            rw [hl] at hu
            exact hIcrit s hs u hu heq)
          hIbins
        obtain ⟨k1, k2, k3, k4⟩ := hres
        refine ⟨k1, ?_, k3, ?_⟩
        · intro s hs
          have := k2 s hs
          rw [hl] at this
          exact this
        · intro u hu huin hR
          apply k4 u _ huin hR
          rw [hl]
          exact hu

/-- Claim C5: for a net whose bbox is at least `MIN_DECOMP_BIN_WIDTH = 5`
wide and tall, `get_decomposition_isinks` returns at most
`bins_x * bins_y` sinks with at most one sink per spatial bin, selects no
sink from a bin already holding a reached sink, and for every remaining bin
(one with an unrouted target and no reached sink) selects the most critical
target falling into it, given `remaining` sorted by descending
criticality. -/
theorem claim5_bin_sampling (bb : TBB) (term : Nat → Int × Int) (crit : Nat → Int)
    (reached remaining : List Nat)
    (hW : 5 ≤ bb.xmax - bb.xmin + 1) (hH : 5 ≤ bb.ymax - bb.ymin + 1)
    (hinr : ∀ r ∈ reached, inBB (term r) bb)
    (hint : ∀ s ∈ remaining, inBB (term s) bb)
    (hpos : ∀ s ∈ remaining, 1 ≤ s)
    (hsorted : remaining.Pairwise (fun a b => crit b ≤ crit a)) :
    (get_decomposition_isinks bb term reached remaining).length ≤ binsX bb * binsY bb ∧
    ((get_decomposition_isinks bb term reached remaining).map (binSink bb term)).Nodup ∧
    (∀ s ∈ get_decomposition_isinks bb term reached remaining, s ∈ remaining) ∧
    (∀ s ∈ get_decomposition_isinks bb term reached remaining,
      ∀ r ∈ reached, binSink bb term r ≠ binSink bb term s) ∧
    (∀ u ∈ remaining, (∀ r ∈ reached, binSink bb term r ≠ binSink bb term u) →
      ∃ s ∈ get_decomposition_isinks bb term reached remaining,
        binSink bb term s = binSink bb term u ∧ crit u ≤ crit s) := by
  have hmr := markReached_spec term bb hW hH
    (fun β => ∃ r ∈ reached, binSink bb term r = β) reached (fun _ => 0)
    (binsX bb * binsY bb)
    hinr
    (fun r hr => ⟨r, hr, rfl⟩)
    (noneCard_zero_fun bb).le
    (fun β => Or.inl rfl)
    (fun β h => by simp [REACHED] at h)
  rw [gdi_eq]
  rcases hrec : markReached term bb (binWX bb) (binWY bb) reached (fun _ => 0)
      (binsX bb * binsY bb) with _ | ⟨samples1, stf1⟩ <;> rw [hrec] at hmr
  · refine ⟨by simp, by simp, by simp, by simp, ?_⟩
    intro u hu hnr
    exfalso
    have hrange := binOf_lt bb hW hH (term u) (hint u hu)
    obtain ⟨r, hr, hre⟩ := hmr (binSink bb term u) hrange.1 hrange.2
    exact hnr r hr hre
  · obtain ⟨k1, k2, k3, k4, _⟩ := hmr
    have hst := sampleTargets_spec term bb crit hW hH
      (fun β => samples1 β = REACHED)
      remaining samples1 stf1 [] []
      hint hpos hsorted
      k1
      (fun β => Iff.rfl)
      (fun β => by
        rcases k2 β with h | h
        · exact Or.inl h
        · exact Or.inr (Or.inl h))
      (by simp)
      (by simp)
      (by simp)
      (by simp)
      (by simp)
    obtain ⟨c1, c2, c3, c4⟩ := hst
    refine ⟨?_, c1, fun s hs => c2 s hs, ?_, ?_⟩
    · rw [show (sampleTargets term bb (binWX bb) (binWY bb) remaining samples1 stf1 []).length
          = ((sampleTargets term bb (binWX bb) (binWY bb) remaining samples1 stf1 []).map
            (binSink bb term)).length from (List.length_map _ _).symm]
      apply nodup_bins_length _ c1
      intro b hb
      obtain ⟨s, hsmem, rfl⟩ := List.mem_map.mp hb
      have hsrem : s ∈ remaining := c2 s hsmem
      exact binOf_lt bb hW hH (term s) (hint s hsrem)
    · intro s hs r hr heq
      exact (c3 s hs) (heq ▸ k4 r hr)
    · intro u hu hnr
      apply c4 u hu (hint u hu)
      intro hR
      obtain ⟨r, hrm, hre⟩ := k3 (binSink bb term u) hR
      exact hnr r hrm hre

/-- Concrete bbox for the claim C5 witness: `10 × 10`, hence `2 × 2` bins
of width 6. -/
def bb5 : TBB := ⟨0, 9, 0, 9⟩

/-- Terminals for the C5 witness: sinks 1 and 3 share bin `(0,0)`, sink 2
is alone in bin `(1,1)`. -/
def term5 : Nat → Int × Int
  | 1 => (0, 0)
  | 2 => (7, 8)
  | 3 => (1, 1)
  | _ => (0, 0)

/-- Criticalities for the C5 witness, descending along `[1, 2, 3]`. -/
def crit5 : Nat → Int
  | 1 => 10
  | 2 => 5
  | 3 => 1
  | _ => 0

/-- Concrete instantiation of claim C5: on `bb5`/`term5` the selection
keeps at most one sink per bin (`bins = 4`), picks only listed sinks, and
covers the bin of the less critical duplicate sink 3 by the more critical
sink 1. -/
theorem claim5_witness :
    (get_decomposition_isinks bb5 term5 [] [1, 2, 3]).length ≤ binsX bb5 * binsY bb5 ∧
    (∀ s ∈ get_decomposition_isinks bb5 term5 [] [1, 2, 3], s ∈ [1, 2, 3]) ∧
    (∃ s ∈ get_decomposition_isinks bb5 term5 [] [1, 2, 3],
      binSink bb5 term5 s = binSink bb5 term5 3 ∧ crit5 3 ≤ crit5 s) := by
  have h := claim5_bin_sampling bb5 term5 crit5 [] [1, 2, 3]
    (by decide) (by decide) (by decide) (by decide) (by decide) (by decide)
  exact ⟨h.1, h.2.2.1, h.2.2.2.2 3 (by decide) (by decide)⟩

end VtrParallel
